import Mathlib

/-!
Verification of the certification-lab-ci-tools toolbox core against its
specification.  Python text is embedded as `List Char`; machine-level
side effects (sleeping, running remote commands) are made explicit as
data.  Each section embeds one source module of
`cert-tools/toolbox/src/toolbox/`.
-/

deriving instance DecidableEq for Except

namespace Toolbox

/-! ## Python text primitives

Python `str` values are embedded as `List Char`.  `str.lstrip` / `str.strip`
remove the ASCII whitespace characters Python treats as space. -/

/-- Whitespace characters recognised by Python's `str.strip` (ASCII subset). -/
def pyIsSpace (c : Char) : Bool :=
  c = ' ' || c = '\t' || c = '\n' || c = '\x0d' || c = '\x0b' || c = '\x0c'

/-- Embedding of Python `str.lstrip()` with no argument. -/
def pyLstrip (s : List Char) : List Char := s.dropWhile pyIsSpace

/-- Embedding of Python `str.strip()` with no argument. -/
def pyStrip (s : List Char) : List Char := (s.dropWhile pyIsSpace).reverse.dropWhile pyIsSpace |>.reverse

/-- Embedding of `re.split(r"\n|\r\n", s, maxsplit=1)` when it produces two
parts: the text before the first line terminator and the text after it.
`none` models the single-element result whose tuple unpacking raises
`ValueError` in the source.  The regex alternation tries `\n` before `\r\n`
at each position, exactly as mirrored by the pattern order here. -/
def splitLineOnce : List Char → Option (List Char × List Char)
  | [] => none
  | '\n' :: rest => some ([], rest)
  | '\x0d' :: '\n' :: rest => some ([], rest)
  | c :: rest => (splitLineOnce rest).map (fun p => (c :: p.1, p.2))

/-- Value of one hexadecimal digit, as accepted by Python `int(_, base=16)`. -/
def hexDigitVal (c : Char) : Option Nat :=
  if 48 ≤ c.toNat ∧ c.toNat ≤ 57 then some (c.toNat - 48)
  else if 97 ≤ c.toNat ∧ c.toNat ≤ 102 then some (c.toNat - 87)
  else if 65 ≤ c.toNat ∧ c.toNat ≤ 70 then some (c.toNat - 55)
  else none

/-- Fold a run of hexadecimal digits left to right. -/
def parseHexAux (acc : Nat) : List Char → Option Nat
  | [] => some acc
  | c :: cs =>
    match hexDigitVal c with
    | none => none
    | some d => parseHexAux (16 * acc + d) cs

/-- Parse a non-empty run of hexadecimal digits. -/
def parseHexDigits : List Char → Option Nat
  | [] => none
  | l => parseHexAux 0 l

/-- Digits after an optional `0x` / `0X` prefix, as `int(_, 16)` allows. -/
def parseHexBody : List Char → Option Nat
  | '0' :: 'x' :: rest => parseHexDigits rest
  | '0' :: 'X' :: rest => parseHexDigits rest
  | l => parseHexDigits l

/-- Embedding of Python `int(s, base=16)`: surrounding whitespace is
stripped, an optional sign and `0x` prefix are accepted.  (Underscore
digit separators, which never occur in chunked bodies, are not modelled.)
`none` models the `ValueError` raised on any other input. -/
def pyIntHex (s : List Char) : Option Int :=
  match pyStrip s with
  | '-' :: ds => (parseHexBody ds).map (fun n => -(n : Int))
  | '+' :: ds => (parseHexBody ds).map (fun n => (n : Int))
  | ds => (parseHexBody ds).map (fun n => (n : Int))

/-! ## toolbox/interfaces/snapd.py — chunked transfer decoding -/

/-- Python-level failure of `SnapdAPIClient.parse_chunked_body`:
`valueError` models the `ValueError` raised by tuple-unpacking a
single-element `re.split` result or by `int(_, 16)` on a non-hex size
line; `fuel` is the recursion bound of the embedding (never reached,
since every loop iteration consumes at least one character). -/
inductive ChunkErr where
  | valueError
  | fuel
deriving DecidableEq, Repr

/-- Loop of `SnapdAPIClient.parse_chunked_body`: read a hex size line,
stop on a non-positive size, otherwise take that many characters of
payload, `lstrip` the remainder and repeat. -/
def parseChunkedAux : Nat → List Char → List (List Char) → Except ChunkErr (List Char)
  | 0, _, _ => .error .fuel
  | fuel + 1, s, parts =>
    match splitLineOnce s with
    | none => .error .valueError
    | some (sizeLine, rest) =>
      match pyIntHex sizeLine with
      | none => .error .valueError
      | some size =>
        if size ≤ 0 then .ok parts.flatten
        else parseChunkedAux fuel (pyLstrip (rest.drop size.toNat)) (parts ++ [rest.take size.toNat])

/-- Embedding of `SnapdAPIClient.parse_chunked_body`. -/
def parse_chunked_body (raw : List Char) : Except ChunkErr (List Char) :=
  parseChunkedAux (raw.length + 1) raw []

/-- Strict well-formedness of a chunked stream, following the claimed
decoding contract: a hex size line, a line terminator, exactly that many
payload characters, a line terminator, repeated until a zero-size chunk
that ends the stream. -/
def wfChunkedAux : Nat → List Char → Bool
  | 0, _ => false
  | fuel + 1, s =>
    match splitLineOnce s with
    | none => false
    | some (sizeLine, rest) =>
      match parseHexDigits sizeLine with
      | none => false
      | some 0 => rest.isEmpty
      | some n =>
        decide ((rest.take n).length = n) &&
        (match rest.drop n with
         | '\n' :: r2 => wfChunkedAux fuel r2
         | '\x0d' :: '\n' :: r2 => wfChunkedAux fuel r2
         | _ => false)

/-- Decidable well-formedness of a complete chunked stream. -/
def wfChunked (s : List Char) : Bool := wfChunkedAux (s.length + 1) s

/-- Lowercase hexadecimal digit characters. -/
def hexTable : List Char := "0123456789abcdef".toList

/-- Lowercase hexadecimal digit character for a value below 16. -/
def hexDigitChar (d : Nat) : Char := hexTable.getD d '0'

/-- Little-endian hexadecimal digits of `n`, with explicit fuel so that the
definition evaluates by kernel reduction. -/
def natToHexAux : Nat → Nat → List Char
  | 0, _ => []
  | fuel + 1, n => if n = 0 then [] else hexDigitChar (n % 16) :: natToHexAux fuel (n / 16)

/-- Render a natural number in lowercase hexadecimal (test harness for the
decoder; the source itself never encodes). -/
def natToHex (n : Nat) : List Char :=
  if n = 0 then ['0'] else (natToHexAux n n).reverse

/-- Encode payload chunks as an LF-terminated chunked stream. -/
def encodeChunked (chunks : List (List Char)) : List Char :=
  (chunks.map (fun c => natToHex c.length ++ '\n' :: c ++ ['\n'])).flatten ++ ['0', '\n']

/-! ## A minimal JSON value model

Embedding of the values produced by the standard library `json.loads` on
the subset of JSON observed on the snapd wire (objects, arrays, strings
with simple escapes, integers, booleans, null; no floats or exponents). -/

inductive Json where
  | null
  | bool (b : Bool)
  | num (n : Int)
  | str (s : List Char)
  | arr (xs : List Json)
  | obj (fields : List (List Char × Json))

/-- JSON insignificant whitespace. -/
def jsonSkipWs (s : List Char) : List Char :=
  s.dropWhile (fun c => c = ' ' || c = '\t' || c = '\n' || c = '\x0d')

/-- Parse the remainder of a JSON string literal after the opening quote. -/
def parseJsonStr : List Char → Option (List Char × List Char)
  | [] => none
  | '"' :: rest => some ([], rest)
  | '\\' :: c :: rest =>
    let esc : Option Char :=
      if c = '"' then some '"'
      else if c = '\\' then some '\\'
      else if c = '/' then some '/'
      else if c = 'n' then some '\n'
      else if c = 't' then some '\t'
      else if c = 'r' then some '\x0d'
      else none
    match esc with
    | none => none
    | some e => (parseJsonStr rest).map (fun p => (e :: p.1, p.2))
  | c :: rest => (parseJsonStr rest).map (fun p => (c :: p.1, p.2))

/-- Parse a non-empty run of decimal digits. -/
def parseDecDigits (s : List Char) : Option (Nat × List Char) :=
  let digits := s.takeWhile Char.isDigit
  if digits.isEmpty then none
  else some (digits.foldl (fun acc c => 10 * acc + (c.toNat - 48)) 0, s.dropWhile Char.isDigit)

mutual

/-- Parse one JSON value; the fuel bounds object/array nesting. -/
def parseJsonValue : Nat → List Char → Option (Json × List Char)
  | 0, _ => none
  | fuel + 1, s =>
    match jsonSkipWs s with
    | 'n' :: 'u' :: 'l' :: 'l' :: rest => some (.null, rest)
    | 't' :: 'r' :: 'u' :: 'e' :: rest => some (.bool true, rest)
    | 'f' :: 'a' :: 'l' :: 's' :: 'e' :: rest => some (.bool false, rest)
    | '"' :: rest => (parseJsonStr rest).map (fun p => (.str p.1, p.2))
    | '\x7b' :: rest =>
      match jsonSkipWs rest with
      | '\x7d' :: r2 => some (.obj [], r2)
      | _ => (parseJsonMembers fuel rest).map (fun p => (.obj p.1, p.2))
    | '[' :: rest =>
      match jsonSkipWs rest with
      | ']' :: r2 => some (.arr [], r2)
      | _ => (parseJsonElems fuel rest).map (fun p => (.arr p.1, p.2))
    | '-' :: rest => (parseDecDigits rest).map (fun p => (.num (-(p.1 : Int)), p.2))
    | rest => (parseDecDigits rest).map (fun p => (.num (p.1 : Int), p.2))

/-- Parse the members of a JSON object after its opening brace. -/
def parseJsonMembers : Nat → List Char → Option (List (List Char × Json) × List Char)
  | 0, _ => none
  | fuel + 1, s =>
    match jsonSkipWs s with
    | '"' :: rest =>
      match parseJsonStr rest with
      | none => none
      | some (key, r2) =>
        match jsonSkipWs r2 with
        | ':' :: r3 =>
          match parseJsonValue fuel r3 with
          | none => none
          | some (v, r4) =>
            match jsonSkipWs r4 with
            | ',' :: r5 => (parseJsonMembers fuel r5).map (fun p => ((key, v) :: p.1, p.2))
            | '\x7d' :: r5 => some ([(key, v)], r5)
            | _ => none
        | _ => none
    | _ => none

/-- Parse the elements of a JSON array after its opening bracket. -/
def parseJsonElems : Nat → List Char → Option (List Json × List Char)
  | 0, _ => none
  | fuel + 1, s =>
    match parseJsonValue fuel s with
    | none => none
    | some (v, rest) =>
      match jsonSkipWs rest with
      | ',' :: r2 => (parseJsonElems fuel r2).map (fun p => (v :: p.1, p.2))
      | ']' :: r2 => some ([v], r2)
      | _ => none

end

/-- Modelled from the standard library `json.loads` (on the wire subset
described at `Json`): parse one document and reject trailing data. -/
def jsonLoads (s : List Char) : Option Json :=
  match parseJsonValue (s.length + 1) s with
  | some (v, rest) => if (jsonSkipWs rest).isEmpty then some v else none
  | none => none

/-- Python dict lookup on a parsed JSON object; later duplicate keys win,
as they do in `json.loads`.  `none` models a `KeyError` (or a non-object
value). -/
def jsonObjGet (j : Json) (key : List Char) : Option Json :=
  match j with
  | .obj kvs => kvs.reverse.lookup key
  | _ => none

/-! ## toolbox/interfaces/snapd.py — response parsing and dispatch -/

/-- Error raised as `SnapdAPIError`, carrying its message. -/
structure APIError where
  message : List Char
deriving DecidableEq

/-- Embedding of `re.search(r"{.*}", response, re.DOTALL)`: the greedy
match runs from the first opening brace to the last closing brace. -/
def extractBraces (s : List Char) : Option (List Char) :=
  match s.findIdx? (fun c => c = '\x7b'), s.reverse.findIdx? (fun c => c = '\x7d') with
  | some i, some k =>
    let j := s.length - 1 - k
    if i < j then some ((s.drop i).take (j - i + 1)) else none
  | _, _ => none

/-- Embedding of `SnapdAPIClient.parse_json`. -/
def parse_json (body : List Char) : Except APIError Json :=
  match extractBraces body with
  | none => .error ⟨"Unable to extract application/json content from response: ".toList ++ body⟩
  | some contents =>
    match jsonLoads contents with
    | none => .error ⟨"Unable to parse application/json content: ".toList ++ contents⟩
    | some j => .ok j

/-- Embedding of `re.split(r"\n\n|\r\n\r\n", s, maxsplit=1)` when a
blank-line boundary exists. -/
def splitBlankOnce : List Char → Option (List Char × List Char)
  | [] => none
  | '\n' :: '\n' :: rest => some ([], rest)
  | '\x0d' :: '\n' :: '\x0d' :: '\n' :: rest => some ([], rest)
  | c :: rest => (splitBlankOnce rest).map (fun p => (c :: p.1, p.2))

/-- Embedding of the unbounded `re.split(r"\n\n|\r\n\r\n", s)`. -/
def splitBlankAllAux : Nat → List Char → List (List Char)
  | 0, s => [s]
  | fuel + 1, s =>
    match splitBlankOnce s with
    | none => [s]
    | some (a, rest) => a :: splitBlankAllAux fuel rest

/-- Split a body on every blank-line boundary. -/
def splitBlankAll (s : List Char) : List (List Char) := splitBlankAllAux (s.length + 1) s

/-- Modelled from the standard library `yaml.safe_load`: an assertion
document is represented by its raw text (the claims under verification
concern only how the body is split into documents). -/
def yaml_safe_load (doc : List Char) : List Char := doc

/-- Embedding of `SnapdAPIClient.parse_assertions`: split on blank-line
boundaries and parse every part but the last.  (The `yaml.YAMLError`
re-raise branch is unreachable under the text model of `yaml_safe_load`.) -/
def parse_assertions (body : List Char) : List (List Char) :=
  ((splitBlankAll body).dropLast).map yaml_safe_load

/-- Parsed response header: the status dict plus the header-field map. -/
structure ParsedHeader where
  statusCode : List Char
  reason : Option (List Char)
  fields : List (List Char × List Char)
deriving DecidableEq

/-- Python `dict` lookup over the header fields; on duplicates the last
write wins. -/
def headerGet (h : ParsedHeader) (k : List Char) : Option (List Char) :=
  h.fields.reverse.lookup k

/-- Failure of `SnapdAPIClient.get` after a response was parsed: either a
typed `SnapdAPIError` or the untyped `KeyError` of the `["result"]`
subscript. -/
inductive GetError where
  | api (e : APIError)
  | keyErr (key : List Char)

/-- Result value of `SnapdAPIClient.get`: a JSON `result` field or a list
of assertion documents. -/
inductive DispatchResult where
  | json (j : Json)
  | assertions (docs : List (List Char))

/-- Embedding of the dispatch tail of `SnapdAPIClient.get` (snapd.py lines
131-143): reject non-200 statuses, then branch on the Content-Type. -/
def dispatch (url : List Char) (header : ParsedHeader) (body : List Char) :
    Except GetError DispatchResult :=
  if header.statusCode ≠ "200".toList then
    .error (.api ⟨"Response ".toList ++ header.statusCode ++
      (match header.reason with
       | some r => " (".toList ++ r ++ [')']
       | none => []) ++ " to request ".toList ++ url⟩)
  else
    match headerGet header "Content-Type".toList with
    | some ct =>
      if ct = "application/json".toList then
        match parse_json body with
        | .error e => .error (.api e)
        | .ok j =>
          match jsonObjGet j "result".toList with
          | some v => .ok (.json v)
          | none => .error (.keyErr "result".toList)
      else if ct = "application/x.ubuntu.assertion".toList then
        .ok (.assertions (parse_assertions body))
      else .error (.api ⟨"Unable to parse content type: ".toList ++ ct⟩)
    | none => .error (.api ⟨"Unable to parse content type: None".toList⟩)

/-! ## toolbox/interfaces/snapd.py — header parsing and request building -/

/-- Unbounded `re.split(r"\n|\r\n", s)`, as used on the raw header. -/
def splitLinesAllAux : Nat → List Char → List (List Char)
  | 0, s => [s]
  | fuel + 1, s =>
    match splitLineOnce s with
    | none => [s]
    | some (a, rest) => a :: splitLinesAllAux fuel rest

/-- Split a raw header into its lines. -/
def splitLinesAll (s : List Char) : List (List Char) := splitLinesAllAux (s.length + 1) s

/-- Embedding of Python `str.split(maxsplit=2)`: split on whitespace runs
into at most three parts, the third keeping its inner text verbatim. -/
def pySplitWsMax2 (s : List Char) : List (List Char) :=
  let s1 := s.dropWhile pyIsSpace
  let w1 := s1.takeWhile (fun c => !pyIsSpace c)
  if w1.isEmpty then []
  else
    let s2 := (s1.dropWhile (fun c => !pyIsSpace c)).dropWhile pyIsSpace
    let w2 := s2.takeWhile (fun c => !pyIsSpace c)
    if w2.isEmpty then [w1]
    else
      let s3 := (s2.dropWhile (fun c => !pyIsSpace c)).dropWhile pyIsSpace
      if s3.isEmpty then [w1, w2] else [w1, w2, s3]

/-- Embedding of Python `str.split(": ")`: split on every (non-overlapping,
leftmost-first) occurrence of the separator. -/
def splitColonSpaceAll : List Char → List (List Char)
  | [] => [[]]
  | ':' :: ' ' :: rest => [] :: splitColonSpaceAll rest
  | c :: rest =>
    let r := splitColonSpaceAll rest
    (c :: r.headD []) :: r.tail

/-- Header-line parse used by `parse_header`: `field, value = line.split(": ")`
succeeds only when the split has exactly two parts; `none` models the
suppressed `ValueError` (the line is then skipped). -/
def headerLineParse (line : List Char) : Option (List Char × List Char) :=
  match splitColonSpaceAll line with
  | [f, v] => some (f, v)
  | _ => none

/-- Embedding of `SnapdAPIClient.parse_header`; `none` models the
`IndexError` raised when the status line has no code. -/
def parse_header (rawHeader : List Char) : Option ParsedHeader :=
  let headerLines := (splitLinesAll rawHeader).map pyStrip
  match headerLines with
  | [] => none
  | statusLine :: rest =>
    match pySplitWsMax2 statusLine with
    | _ :: code :: maybeReason =>
      some { statusCode := code
             reason := maybeReason.head?
             fields := rest.filterMap (fun line => headerLineParse line) }
    | _ => none

/-- Embedding of `SnapdAPIClient.parse`: split header from body at the
first blank line, then chunk-decode if the header says so.  `none` models
the `ValueError`/`IndexError` of a malformed response. -/
def parseResponse (response : List Char) :
    Option (ParsedHeader × Except ChunkErr (List Char)) :=
  match splitBlankOnce response with
  | none => none
  | some (rawHeader, rawBody) =>
    match parse_header rawHeader with
    | none => none
    | some header =>
      if headerGet header "Transfer-Encoding".toList = some "chunked".toList then
        some (header, parse_chunked_body rawBody)
      else
        some (header, .ok rawBody)

/-- Uppercase hexadecimal digit characters. -/
def hexTableUpper : List Char := "0123456789ABCDEF".toList

/-- Uppercase hexadecimal digit character for a value below 16. -/
def hexDigitCharUpper (d : Nat) : Char := hexTableUpper.getD d '0'

/-- UTF-8 bytes of one character. -/
def utf8Bytes (c : Char) : List Nat :=
  let n := c.toNat
  if n < 128 then [n]
  else if n < 2048 then [192 + n / 64, 128 + n % 64]
  else if n < 65536 then [224 + n / 4096, 128 + (n / 64) % 64, 128 + n % 64]
  else [240 + n / 262144, 128 + (n / 4096) % 64, 128 + (n / 64) % 64, 128 + n % 64]

/-- Characters `urllib.parse.quote_plus` leaves unencoded with `safe=''`. -/
def isUrlSafe (c : Char) : Bool :=
  c.isAlpha || c.isDigit || c = '_' || c = '.' || c = '-' || c = '~'

/-- Embedding of `urllib.parse.quote_plus` with `safe=''`: spaces become
plus signs, safe characters pass through, everything else is
percent-encoded byte by byte in uppercase hex. -/
def quotePlus (s : List Char) : List Char :=
  s.flatMap (fun c =>
    if c = ' ' then ['+']
    else if isUrlSafe c then [c]
    else (utf8Bytes c).flatMap (fun b => ['%', hexDigitCharUpper (b / 16), hexDigitCharUpper (b % 16)]))

/-- Value of one query parameter: a plain string or a sequence, which
`urlencode(..., doseq=True)` spreads over repeated keys. -/
inductive ParamValue where
  | str (v : List Char)
  | seq (vs : List (List Char))

/-- Join query pieces with ampersands, as `urlencode` does. -/
def joinAmp : List (List Char) → List Char
  | [] => []
  | [p] => p
  | p :: rest => p ++ '&' :: joinAmp rest

/-- Embedding of `urllib.parse.urlencode(params, doseq=True)` over an
insertion-ordered parameter dict. -/
def urlencodeDoseq (params : List (List Char × ParamValue)) : List Char :=
  joinAmp
    (params.flatMap (fun kv =>
      match kv.2 with
      | .str v => [quotePlus kv.1 ++ '=' :: quotePlus v]
      | .seq vs => vs.map (fun v => quotePlus kv.1 ++ '=' :: quotePlus v)))

/-- Embedding of `SnapdAPIClient.create_get_request_url`. -/
def create_get_request_url (endpoint : List Char) (params : List (List Char × ParamValue)) :
    List Char :=
  let query := if params.isEmpty then [] else '?' :: urlencodeDoseq params
  "GET /v2/".toList ++ endpoint ++ query

/-- Embedding of `SnapdAPIClient.create_get_request`. -/
def create_get_request (url : List Char) : List Char :=
  url ++ " HTTP/1.1\nHost: snapd.socket\nConnection: close\n\n".toList

/-- Split a text on a single separator character (used to state which
lines the built request consists of). -/
def splitOnChar (sep : Char) : List Char → List (List Char)
  | [] => [[]]
  | c :: rest =>
    let r := splitOnChar sep rest
    if c = sep then [] :: r else (c :: r.headD []) :: r.tail

/-! ## toolbox/retries.py -/

/-- Wait sequence generated by `Linear.waits`: the constant `delay`
indefinitely when `times` is `None`, otherwise `times` repetitions of it.
Durations (Python floats) are embedded as rationals. -/
def linearWaits (times : Option Nat) (delay : ℚ) : Nat → Option ℚ :=
  fun i =>
    match times with
    | none => some delay
    | some n => if i < n then some delay else none

/-- Finite wait list of a bounded `Linear(times=n, delay=d)` policy. -/
def linearWaitsList (n : Nat) (delay : ℚ) : List ℚ := List.replicate n delay

/-- Loop of `retry` after the first (immediate) probe call: for each wait,
sleep, call again, return on success.  The probe is a map from call index
to returned value, `truthy` is Python truthiness of that value; the
result records the returned value, the total number of calls made and the
sleeps performed, in order. -/
def retryAux (script : Nat → α) (truthy : α → Bool) :
    List ℚ → Nat → α → List ℚ → α × Nat × List ℚ
  | [], calls, last, slept => (last, calls, slept)
  | w :: rest, calls, _last, slept =>
    let r := script calls
    if truthy r then (r, calls + 1, slept ++ [w])
    else retryAux script truthy rest (calls + 1) r (slept ++ [w])

/-- Embedding of `retries.retry` driven by a finite wait list: call once
immediately, then follow the policy; on exhaustion return the last
(failing) value. -/
def retry (script : Nat → α) (truthy : α → Bool) (waits : List ℚ) : α × Nat × List ℚ :=
  let r := script 0
  if truthy r then (r, 1, [])
  else retryAux script truthy waits 1 r []

/-! ## toolbox/results.py and the predicate result of snap_connections.py -/

/-- Embedding of `results.BooleanResult`. -/
structure BooleanResult where
  ok : Bool
  message : Option String := none
deriving DecidableEq

/-- Embedding of `BooleanResult.__bool__`. -/
def BooleanResult.toBool (r : BooleanResult) : Bool := r.ok

/-- Embedding of `snap_connections.PredicateCheckResult`. -/
structure PredicateCheckResult where
  result : Bool
  message : Option String := none
deriving DecidableEq

/-- Embedding of `PredicateCheckResult.__bool__`. -/
def PredicateCheckResult.toBool (r : PredicateCheckResult) : Bool := r.result

/-! ## toolbox/snap_connections.py and checkbox/helpers/connector.py -/

/-- Plug dict of the snapd `connections` endpoint.  The `connections` field
is `none` when the key is absent (snapd omits it for an unconnected
plug); its entries pair the peer snap with the peer slot name. -/
structure SnapPlug where
  snap : String
  plug : String
  interface : String
  attrs : Option (List (String × String)) := none
  connections : Option (List (String × String)) := none
deriving DecidableEq

/-- Slot dict of the snapd `connections` endpoint. -/
structure SnapSlot where
  snap : String
  slot : String
  interface : String
  attrs : Option (List (String × String)) := none
  connections : Option (List (String × String)) := none
deriving DecidableEq

/-- Embedding of `snap_connections.Connection`. -/
structure Connection where
  plug_snap : String
  plug_name : String
  slot_snap : String
  slot_name : String
deriving DecidableEq

/-- Embedding of `Connection.from_dicts`. -/
def Connection.from_dicts (plug : SnapPlug) (slot : SnapSlot) : Connection :=
  ⟨plug.snap, plug.plug, slot.snap, slot.slot⟩

/-- Embedding of `Connection.__str__`. -/
def Connection.toText (c : Connection) : String :=
  c.plug_snap ++ ":" ++ c.plug_name ++ "/" ++ c.slot_snap ++ ":" ++ c.slot_name

/-- Predicates are evaluated uniformly through one `check(plug, slot)`
interface; a predicate is embedded as that check function. -/
def Pred : Type := SnapPlug → SnapSlot → PredicateCheckResult

/-- Embedding of `MatchAttributes.check`: if either side lacks `attrs`,
accept; otherwise every attribute key present on both sides must have
equal values.  (Its `assert plug.interface == slot.interface` precondition
holds at every call site of `process` and is not re-modelled.) -/
def matchAttributesCheck : Pred := fun plug slot =>
  match plug.attrs, slot.attrs with
  | some pa, some sa =>
    ⟨pa.all (fun kv =>
        match sa.lookup kv.1 with
        | some w => kv.2 == w
        | none => true), none⟩
  | _, _ => ⟨true, none⟩

/-- Embedding of `DifferentSnaps.check`. -/
def differentSnapsCheck : Pred := fun plug slot =>
  ⟨plug.snap != slot.snap, none⟩

/-- Embedding of `SelectSnaps.check`. -/
def selectSnapsCheck (snaps : List String) : Pred := fun plug _slot =>
  ⟨snaps.contains plug.snap, none⟩

/-- Blacklist match entry: any `None` field is a wildcard. -/
structure BlacklistEntry where
  plug_snap : Option String := none
  plug_name : Option String := none
  slot_snap : Option String := none
  slot_name : Option String := none
deriving DecidableEq

/-- Wildcard-aware field comparison of a blacklist entry. -/
def optMatches (o : Option String) (v : String) : Bool :=
  match o with
  | none => true
  | some x => x == v

/-- Embedding of `Blacklist.check`. -/
def blacklistCheck (entries : List BlacklistEntry) : Pred := fun plug slot =>
  let rejected := entries.any (fun e =>
    optMatches e.plug_snap plug.snap && optMatches e.plug_name plug.plug &&
    optMatches e.slot_snap slot.snap && optMatches e.slot_name slot.slot)
  if rejected then
    ⟨false, some ("Connection '" ++ (Connection.from_dicts plug slot).toText ++ "' is blacklisted")⟩
  else ⟨true, none⟩

/-- Embedding of `filter(bool, messages)`: keep the messages that are
neither `None` nor empty. -/
def pyFilterMessages (msgs : List (Option String)) : List String :=
  (msgs.filterMap id).filter (fun m => m != "")

/-- Topology snapshot reported by the `connections` endpoint. -/
structure Topology where
  plugs : List SnapPlug
  slots : List SnapSlot

/-- Predicate list of a `Connector`: the two defaults followed by the
caller-supplied predicates. -/
def connectorPredicates (extra : List Pred) : List Pred :=
  [matchAttributesCheck, differentSnapsCheck] ++ extra

/-- Plugs considered by `process`: exactly those whose dict has no
`connections` key. -/
def consideredPlugs (plugs : List SnapPlug) : List SnapPlug :=
  plugs.filter (fun p => p.connections.isNone)

/-- Plug group of one interface name (the `interface_plugs` defaultdict):
the considered plugs of that interface, in topology order.  The source's
`interface in interface_plugs` membership test is equivalent to this group
being non-empty, and iterating an empty group does nothing. -/
def interfaceGroup (plugs : List SnapPlug) (i : String) : List SnapPlug :=
  (consideredPlugs plugs).filter (fun p => p.interface == i)

/-- Embedding of `snap_connections.Connector.process`: the candidate
connection set together with every message the run passes to
`logger.info`, in evaluation order. -/
def connectorProcess (preds : List Pred) (data : Topology) : Finset Connection × List String :=
  data.slots.foldl
    (fun acc slot =>
      (interfaceGroup data.plugs slot.interface).foldl
        (fun acc2 plug =>
          let results := preds.map (fun pr => pr plug slot)
          ((if results.all (fun r => r.result) then
              insert (Connection.from_dicts plug slot) acc2.1
            else acc2.1),
           acc2.2 ++ pyFilterMessages (results.map (fun r => r.message))))
        acc)
    (∅, [])

/-- Untyped Python failures surfacing from the embedded code. -/
inductive PyErr where
  | nameError (name : String)
  | attributeError (cls meth : String)
deriving DecidableEq

/-- Loop state of `checkbox.helpers.connector.SnapConnector.process`: the
connection set, the `messages` tuple of the most recent pair (the local
variable live at the `return` statement) and the `aggregate_messages`
list the loop builds. -/
structure SnapConnAcc where
  conns : Finset Connection
  last : Option (List (Option String))
  aggregate : List String

/-- Shared loop of `SnapConnector.process`. -/
def snapConnectorFold (preds : List Pred) (data : Topology) : SnapConnAcc :=
  data.slots.foldl
    (fun acc slot =>
      (interfaceGroup data.plugs slot.interface).foldl
        (fun acc2 plug =>
          let results := preds.map (fun pr => pr plug slot)
          { conns :=
              if results.all (fun r => r.result) then
                insert (Connection.from_dicts plug slot) acc2.conns
              else acc2.conns
            last := some (results.map (fun r => r.message))
            aggregate := acc2.aggregate ++ pyFilterMessages (results.map (fun r => r.message)) })
        acc)
    ⟨∅, none, []⟩

/-- Embedding of `SnapConnector.process`: it returns `connections, messages`
— the last pair's raw message tuple — not the `aggregate_messages` the
loop accumulated; with no pair processed the name `messages` is unbound. -/
def snapConnectorProcess (preds : List Pred) (data : Topology) :
    Except PyErr (Finset Connection × List (Option String)) :=
  let acc := snapConnectorFold preds data
  match acc.last with
  | none => .error (.nameError "messages")
  | some ms => .ok (acc.conns, ms)

/-- Results of every predicate on one plug/slot pair, in predicate order
(the generator consumed whole by `zip` in `process`). -/
def pairResults (preds : List Pred) (plug : SnapPlug) (slot : SnapSlot) :
    List PredicateCheckResult :=
  preds.map (fun pr => pr plug slot)

/-- The pair verdict of `process`: `all(results)`. -/
def pairAccept (preds : List Pred) (plug : SnapPlug) (slot : SnapSlot) : Bool :=
  (pairResults preds plug slot).all (fun r => r.result)

/-- Candidate-connection component of `process`, as a nested fold. -/
def connectorConnSet (preds : List Pred) (data : Topology) : Finset Connection :=
  data.slots.foldl
    (fun s slot =>
      (interfaceGroup data.plugs slot.interface).foldl
        (fun s2 plug =>
          if pairAccept preds plug slot then insert (Connection.from_dicts plug slot) s2
          else s2)
        s)
    ∅

/-- All messages `process` hands to `logger.info`, in evaluation order. -/
def connectorMessages (preds : List Pred) (data : Topology) : List String :=
  data.slots.flatMap (fun slot =>
    (interfaceGroup data.plugs slot.interface).flatMap (fun plug =>
      pyFilterMessages ((pairResults preds plug slot).map (fun r => r.message))))

/-! ## toolbox/devices/registry.py -/

/-- One capability instance: its type identifier (`type(instance).__name__`)
and the identifiers of the interface types it declares as required. -/
structure InterfaceInst where
  name : String
  requires : List String
deriving DecidableEq

/-- Embedding of `DeviceInterfaceError` as raised by the registry. -/
inductive RegistryError where
  | duplicate (name : String)
  | missing (names : List String)
  | notRegistered (name : String)
deriving DecidableEq

/-- Lexicographic code-point comparison of character lists, as Python's
string `<=` orders them. -/
def charListLeb : List Char → List Char → Bool
  | [], _ => true
  | _ :: _, [] => false
  | a :: as, b :: bs =>
    if a.toNat < b.toNat then true
    else if b.toNat < a.toNat then false
    else charListLeb as bs

/-- Python string comparison `a <= b`. -/
def strLeb (a b : String) : Bool := charListLeb a.toList b.toList

/-- Insertion into a sorted list of strings. -/
def insertSorted (x : String) : List String → List String
  | [] => [x]
  | y :: ys => if strLeb x y then x :: y :: ys else y :: insertSorted x ys

/-- Embedding of Python `sorted` on a list of strings. -/
def sortStrings (l : List String) : List String := l.foldr insertSorted []

/-- Embedding of `DeviceInterfaceRegistry._register` folded over the
constructor argument: indexing each instance by its type name and failing
on a duplicate. -/
def registerAll : List InterfaceInst → List (String × InterfaceInst) →
    Except RegistryError (List (String × InterfaceInst))
  | [], reg => .ok reg
  | i :: rest, reg =>
    if (reg.map Prod.fst).contains i.name then .error (.duplicate i.name)
    else registerAll rest (reg ++ [(i.name, i)])

/-- The `missing` set of `_check_requirements`, as the sorted deduplicated
list Python's `sorted` produces from it. -/
def missingOf (reg : List (String × InterfaceInst)) : List String :=
  sortStrings
    (((reg.flatMap (fun kv => kv.2.requires)).filter
        (fun r => !(reg.map Prod.fst).contains r)).dedup)

/-- Embedding of `DeviceInterfaceRegistry._check_requirements`. -/
def checkRequirements (reg : List (String × InterfaceInst)) :
    Except RegistryError Unit :=
  let missing := missingOf reg
  if missing.isEmpty then .ok () else .error (.missing missing)

/-- Embedding of `DeviceInterfaceRegistry.__init__`: register every
instance, then validate the requirements. -/
def registryInit (insts : List InterfaceInst) :
    Except RegistryError (List (String × InterfaceInst)) :=
  match registerAll insts [] with
  | .error e => .error e
  | .ok reg =>
    match checkRequirements reg with
    | .error e => .error e
    | .ok _ => .ok reg

/-- Embedding of `DeviceInterfaceRegistry.__getitem__`. -/
def registryGet (reg : List (String × InterfaceInst)) (name : String) :
    Except RegistryError InterfaceInst :=
  match reg.lookup name with
  | some i => .ok i
  | none => .error (.notRegistered name)

/-! ## toolbox/interfaces/snaps.py — change polling and reboot handling -/

/-- Change dict of the snapd `changes` endpoint. -/
structure Change where
  id : String
  ready : Bool
  status : String
  summary : String
deriving DecidableEq

/-- Embedding of `SnapInterface.check_snap_changes_complete`. -/
def check_snap_changes_complete (changes : List Change) : Bool :=
  changes.all (fun c => c.ready)

/-- Methods defined by `SystemStatusInterface` (status.py): Python
attribute lookup on the interface resolves only these names. -/
def systemStatusMethods : List String := ["get_status", "wait_for_status"]

/-- Observable device actions taken by the change-polling controller. -/
inductive DeviceEffect where
  | reboot
  | waitStatus (allowed : List String)
  | pollChanges
deriving DecidableEq

/-- Embedding of `SnapInterface.check_snap_changes_complete_and_reboot`:
poll the changes; when some change is not ready and the reboot-required
marker is present, issue the reboot and then look up `wait_for_running`
on `SystemStatusInterface`.  The lookup is guarded by the interface's
actual method table: since no such method exists, the call raises
`AttributeError` after the reboot; the guarded branch records what the
surrounding code intends (wait for status `running`/`degraded`, then
re-poll `changesAfterReboot`). -/
def check_snap_changes_complete_and_reboot (changes changesAfterReboot : List Change)
    (rebootRequired : Bool) : List DeviceEffect × Except PyErr Bool :=
  let complete := check_snap_changes_complete changes
  if !complete && rebootRequired then
    if systemStatusMethods.contains "wait_for_running" then
      ([.reboot, .waitStatus ["running", "degraded"], .pollChanges],
       .ok (check_snap_changes_complete changesAfterReboot))
    else
      ([.reboot], .error (.attributeError "SystemStatusInterface" "wait_for_running"))
  else ([], .ok complete)

/-! # Theorems -/

/-! ## Retry engine lemmas -/

/-- After the immediate call, if the probe keeps failing the loop consumes
every wait and hands back the value of the final call. -/
theorem retryAux_all_falsy {α : Type} (script : Nat → α) (truthy : α → Bool) :
    ∀ (waits : List ℚ) (c : Nat) (last : α) (slept : List ℚ),
      (∀ i, c ≤ i → i < c + waits.length → truthy (script i) = false) →
      retryAux script truthy waits c last slept =
        ((if waits.isEmpty then last else script (c + waits.length - 1)),
         c + waits.length, slept ++ waits) := by
  intro waits
  induction waits with
  | nil => intro c last slept _; simp [retryAux]
  | cons w rest ih =>
    intro c last slept hfal
    have h0 : truthy (script c) = false := hfal c le_rfl (by simp)
    simp only [retryAux, h0, if_neg (by simp [h0] : ¬ truthy (script c) = true)]
    rw [ih (c + 1) (script c) (slept ++ [w])
      (fun i h1 h2 => hfal i (by omega) (by simp at h2 ⊢; omega))]
    cases rest with
    | nil => simp
    | cons r rs =>
      simp only [List.isEmpty_cons, List.length_cons]
      have e1 : c + 1 + (rs.length + 1) - 1 = c + (rs.length + 1 + 1) - 1 := by omega
      have e2 : c + 1 + (rs.length + 1) = c + (rs.length + 1 + 1) := by omega
      simp [e1, e2]

/-- After the immediate call, if the probe fails for `m` further calls and
then succeeds, the loop returns that success having slept `m + 1` times. -/
theorem retryAux_success {α : Type} (script : Nat → α) (truthy : α → Bool) :
    ∀ (waits : List ℚ) (m c : Nat) (last : α) (slept : List ℚ),
      m < waits.length →
      (∀ i, c ≤ i → i < c + m → truthy (script i) = false) →
      truthy (script (c + m)) = true →
      retryAux script truthy waits c last slept =
        (script (c + m), c + m + 1, slept ++ waits.take (m + 1)) := by
  intro waits
  induction waits with
  | nil => intro m c last slept hm; simp at hm
  | cons w rest ih =>
    intro m c last slept hm hfal hsuc
    cases m with
    | zero =>
      have h0 : truthy (script c) = true := by simpa using hsuc
      simp [retryAux, h0]
    | succ m' =>
      have h0 : truthy (script c) = false := hfal c le_rfl (by omega)
      simp only [retryAux, h0, if_neg (by simp [h0] : ¬ truthy (script c) = true)]
      have e : c + 1 + m' = c + (m' + 1) := by omega
      rw [ih m' (c + 1) (script c) (slept ++ [w]) (by simpa using hm)
        (fun i h1 h2 => hfal i (by omega) (by omega)) (by rw [e]; exact hsuc)]
      simp [e]

/-- C1: the Retry Engine calls the probe once immediately, returns on the
first success, and sleeps once per consumed wait of a policy of `n`
retries; a probe failing on the first `k - 1` calls and succeeding on
call `k ≤ n + 1` is called exactly `k` times and its success value is
returned, while an always-failing probe is called exactly `n + 1` times
and the last failing value is returned without any exhaustion error. -/
theorem c1_retry_engine_contract :
    (∀ (α : Type) (script : Nat → α) (truthy : α → Bool) (waits : List ℚ) (k : Nat),
        1 ≤ k → k ≤ waits.length + 1 →
        (∀ i, i < k - 1 → truthy (script i) = false) →
        truthy (script (k - 1)) = true →
        retry script truthy waits = (script (k - 1), k, waits.take (k - 1))) ∧
    (∀ (α : Type) (script : Nat → α) (truthy : α → Bool) (waits : List ℚ),
        (∀ i, i ≤ waits.length → truthy (script i) = false) →
        retry script truthy waits = (script waits.length, waits.length + 1, waits)) := by
  constructor
  · intro α script truthy waits k hk1 hk2 hfal hsuc
    by_cases hk : k = 1
    · subst hk
      simp only [Nat.sub_self] at hsuc
      simp [retry, hsuc]
    · have h0 : truthy (script 0) = false := hfal 0 (by omega)
      have hlen : 1 ≤ waits.length := by omega
      simp only [retry, h0, if_neg (by simp [h0] : ¬ truthy (script 0) = true)]
      have e : 1 + (k - 2) = k - 1 := by omega
      rw [retryAux_success script truthy waits (k - 2) 1 (script 0) [] (by omega)
        (fun i h1 h2 => hfal i (by omega)) (by rw [e]; exact hsuc)]
      have e2 : k - 2 + 1 = k - 1 := by omega
      rw [e, e2]
      have e3 : k - 1 + 1 = k := by omega
      rw [e3]
      simp
  · intro α script truthy waits hfal
    have h0 : truthy (script 0) = false := hfal 0 (Nat.zero_le _)
    simp only [retry, h0, if_neg (by simp [h0] : ¬ truthy (script 0) = true)]
    rw [retryAux_all_falsy script truthy waits 1 (script 0) []
      (fun i h1 h2 => hfal i (by omega))]
    cases waits with
    | nil => simp
    | cons w rest =>
      simp only [List.isEmpty_cons, List.length_cons]
      have e1 : 1 + (rest.length + 1) - 1 = rest.length + 1 := by omega
      have e2 : 1 + (rest.length + 1) = rest.length + 1 + 1 := by omega
      simp [e1, e2]

/-- C1 witness: with three zero waits, a probe succeeding on its third
call is called three times; with two waits, an always-failing probe is
called three times and the failure is returned. -/
theorem c1_retry_engine_contract_witness :
    retry (fun i => decide (i = 2)) id ([0, 0, 0] : List ℚ) = (true, 3, [0, 0]) ∧
    retry (fun _ => false) id ([0, 0] : List ℚ) = (false, 3, [0, 0]) := by
  constructor
  · have h := c1_retry_engine_contract.1 Bool (fun i => decide (i = 2)) id [0, 0, 0] 3
      (by norm_num) (by norm_num)
      (fun i hi => by interval_cases i <;> rfl) (by rfl)
    exact h.trans (by decide)
  · have h := c1_retry_engine_contract.2 Bool (fun _ => false) id [0, 0]
      (fun i _ => rfl)
    exact h.trans (by decide)

/-! ## Linear wait policy (C9) -/

/-- C9 counterexample: it is not true that every wait yielded by a Linear
policy with arbitrary constructor arguments is non-negative — the policy
`Linear(times=1, delay=-1)` yields the negative wait `-1`. -/
theorem c9_wait_nonneg_counterexample :
    ¬ (∀ (times : Option Nat) (delay : ℚ) (i : Nat) (w : ℚ),
        linearWaits times delay i = some w → 0 ≤ w) := by
  intro h
  have := h (some 1) (-1) 0 (-1) rfl
  norm_num at this

/-- Every yielded wait of a Linear policy is the configured delay. -/
theorem linearWaits_eq_delay (times : Option Nat) (delay : ℚ) (i : Nat) (w : ℚ)
    (h : linearWaits times delay i = some w) : w = delay := by
  cases times with
  | none => exact (Option.some.inj h).symm
  | some n =>
    simp only [linearWaits] at h
    by_cases hi : i < n
    · rw [if_pos hi] at h
      exact (Option.some.inj h).symm
    · rw [if_neg hi] at h
      exact absurd h (by simp)

/-- C9 amended: every wait yielded by a Linear policy, bounded or
unbounded, equals its configured delay, so every wait is non-negative
whenever the delay argument is non-negative — as the default delay `0`
is — but a negative delay argument is passed through unchecked. -/
theorem c9_wait_nonneg_amended :
    (∀ (times : Option Nat) (delay : ℚ) (i : Nat) (w : ℚ),
        linearWaits times delay i = some w → w = delay) ∧
    (∀ (times : Option Nat) (delay : ℚ) (i : Nat) (w : ℚ),
        0 ≤ delay → linearWaits times delay i = some w → 0 ≤ w) ∧
    (∀ (i : Nat) (w : ℚ), linearWaits none 0 i = some w → 0 ≤ w) := by
  refine ⟨linearWaits_eq_delay, ?_, ?_⟩
  · intro times delay i w hd h
    rw [linearWaits_eq_delay times delay i w h]
    exact hd
  · intro i w h
    rw [linearWaits_eq_delay none 0 i w h]

/-- C9 witness: the bounded policy `Linear(times=2, delay=5)` yields `5`,
which equals its delay and is non-negative. -/
theorem c9_wait_nonneg_amended_witness :
    linearWaits (some 2) 5 0 = some 5 ∧ (5 : ℚ) = 5 ∧ (0 : ℚ) ≤ 5 :=
  ⟨rfl, c9_wait_nonneg_amended.1 (some 2) 5 0 5 rfl,
    c9_wait_nonneg_amended.2.1 (some 2) 5 0 5 (by norm_num) rfl⟩

/-! ## Connection resolver lemmas -/

/-- A fold whose second component appends data depending only on the list
element splits into its two components. -/
theorem foldl_pairAppend {α σ : Type} (g : σ → α → σ) (h : α → List String) :
    ∀ (l : List α) (s0 : σ) (m0 : List String),
      l.foldl (fun acc x => (g acc.1 x, acc.2 ++ h x)) (s0, m0)
        = (l.foldl g s0, m0 ++ l.flatMap h) := by
  intro l
  induction l with
  | nil => intro s0 m0; simp
  | cons a l ih =>
    intro s0 m0
    simp only [List.foldl_cons, List.flatMap_cons]
    rw [ih]
    simp

/-- Membership in a fold that conditionally inserts one element per list
entry. -/
theorem mem_foldl_insertIf {α γ : Type} [DecidableEq γ] (p : α → Bool) (f : α → γ) :
    ∀ (l : List α) (init : Finset γ) (c : γ),
      (c ∈ l.foldl (fun s x => if p x then insert (f x) s else s) init) ↔
        (c ∈ init ∨ ∃ x, x ∈ l ∧ p x = true ∧ c = f x) := by
  intro l
  induction l with
  | nil => intro init c; simp
  | cons a l ih =>
    intro init c
    simp only [List.foldl_cons]
    rw [ih]
    by_cases hp : p a = true
    · rw [if_pos hp]
      simp only [Finset.mem_insert, List.mem_cons]
      constructor
      · rintro ((h | h) | ⟨x, hx, hpx, hc⟩)
        · exact Or.inr ⟨a, Or.inl rfl, hp, h⟩
        · exact Or.inl h
        · exact Or.inr ⟨x, Or.inr hx, hpx, hc⟩
      · rintro (h | ⟨x, hax, hpx, hc⟩)
        · exact Or.inl (Or.inr h)
        · rcases hax with rfl | hx
          · exact Or.inl (Or.inl hc)
          · exact Or.inr ⟨x, hx, hpx, hc⟩
    · rw [if_neg hp]
      constructor
      · rintro (h | ⟨x, hx, hpx, hc⟩)
        · exact Or.inl h
        · exact Or.inr ⟨x, List.mem_cons_of_mem a hx, hpx, hc⟩
      · rintro (h | ⟨x, hax, hpx, hc⟩)
        · exact Or.inl h
        · rcases List.mem_cons.mp hax with rfl | hx
          · exact absurd hpx hp
          · exact Or.inr ⟨x, hx, hpx, hc⟩

/-- The inner plug loop of `process`, split into its connection-set and
message components. -/
theorem connectorInner_eq (preds : List Pred) (slot : SnapSlot) :
    ∀ (group : List SnapPlug) (acc : Finset Connection × List String),
      group.foldl
        (fun acc2 plug =>
          let results := preds.map (fun pr => pr plug slot)
          ((if results.all (fun r => r.result) then
              insert (Connection.from_dicts plug slot) acc2.1
            else acc2.1),
           acc2.2 ++ pyFilterMessages (results.map (fun r => r.message)))) acc
      = (group.foldl
          (fun s2 plug =>
            if pairAccept preds plug slot then insert (Connection.from_dicts plug slot) s2
            else s2) acc.1,
         acc.2 ++ group.flatMap
           (fun plug => pyFilterMessages ((pairResults preds plug slot).map (fun r => r.message)))) := by
  intro group
  induction group with
  | nil => intro acc; simp
  | cons p ps ih =>
    intro acc
    simp only [List.foldl_cons, List.flatMap_cons]
    rw [ih]
    simp [pairAccept, pairResults]

/-- The outer slot loop of `process`, split into its connection-set and
message components. -/
theorem connectorOuter_eq (preds : List Pred) (plugs : List SnapPlug) :
    ∀ (slots : List SnapSlot) (acc : Finset Connection × List String),
      slots.foldl
        (fun acc slot =>
          (interfaceGroup plugs slot.interface).foldl
            (fun acc2 plug =>
              let results := preds.map (fun pr => pr plug slot)
              ((if results.all (fun r => r.result) then
                  insert (Connection.from_dicts plug slot) acc2.1
                else acc2.1),
               acc2.2 ++ pyFilterMessages (results.map (fun r => r.message)))) acc) acc
      = (slots.foldl
          (fun s slot =>
            (interfaceGroup plugs slot.interface).foldl
              (fun s2 plug =>
                if pairAccept preds plug slot then insert (Connection.from_dicts plug slot) s2
                else s2) s) acc.1,
         acc.2 ++ slots.flatMap (fun slot =>
           (interfaceGroup plugs slot.interface).flatMap
             (fun plug => pyFilterMessages ((pairResults preds plug slot).map (fun r => r.message))))) := by
  intro slots
  induction slots with
  | nil => intro acc; simp
  | cons sl sls ih =>
    intro acc
    simp only [List.foldl_cons, List.flatMap_cons]
    rw [connectorInner_eq preds sl (interfaceGroup plugs sl.interface) acc, ih]
    simp

/-- `Connector.process` computes exactly its connection set and its logged
messages. -/
theorem connectorProcess_eq (preds : List Pred) (data : Topology) :
    connectorProcess preds data = (connectorConnSet preds data, connectorMessages preds data) := by
  unfold connectorProcess connectorConnSet connectorMessages
  rw [connectorOuter_eq preds data.plugs data.slots (∅, [])]
  rfl

/-- Membership in the plug group of an interface. -/
theorem mem_interfaceGroup (plugs : List SnapPlug) (i : String) (plug : SnapPlug) :
    plug ∈ interfaceGroup plugs i ↔
      plug ∈ plugs ∧ plug.connections = none ∧ plug.interface = i := by
  simp only [interfaceGroup, consideredPlugs, List.mem_filter, Option.isNone_iff_eq_none,
    decide_eq_true_eq, beq_iff_eq]
  tauto

/-- Membership in the resolver's candidate-connection set. -/
theorem mem_connectorConnSet (preds : List Pred) (data : Topology) (c : Connection) :
    c ∈ connectorConnSet preds data ↔
      ∃ slot, slot ∈ data.slots ∧ ∃ plug, plug ∈ data.plugs ∧
        plug.connections = none ∧ plug.interface = slot.interface ∧
        pairAccept preds plug slot = true ∧ c = Connection.from_dicts plug slot := by
  unfold connectorConnSet
  have main : ∀ (slots : List SnapSlot) (init : Finset Connection),
      (c ∈ slots.foldl
        (fun s slot =>
          (interfaceGroup data.plugs slot.interface).foldl
            (fun s2 plug =>
              if pairAccept preds plug slot then insert (Connection.from_dicts plug slot) s2
              else s2) s) init) ↔
        (c ∈ init ∨ ∃ slot, slot ∈ slots ∧ ∃ plug,
          plug ∈ interfaceGroup data.plugs slot.interface ∧
          pairAccept preds plug slot = true ∧ c = Connection.from_dicts plug slot) := by
    intro slots
    induction slots with
    | nil => intro init; simp
    | cons sl sls ih =>
      intro init
      simp only [List.foldl_cons]
      rw [ih, mem_foldl_insertIf (fun plug => pairAccept preds plug sl)
        (fun plug => Connection.from_dicts plug sl)]
      constructor
      · rintro ((h | ⟨x, hx, hpx, hc⟩) | ⟨slot, hs, x, hx, hpx, hc⟩)
        · exact Or.inl h
        · exact Or.inr ⟨sl, List.mem_cons_self sl sls, x, hx, hpx, hc⟩
        · exact Or.inr ⟨slot, List.mem_cons_of_mem sl hs, x, hx, hpx, hc⟩
      · rintro (h | ⟨slot, hs, x, hx, hpx, hc⟩)
        · exact Or.inl (Or.inl h)
        · rcases List.mem_cons.mp hs with rfl | hs'
          · exact Or.inl (Or.inr ⟨x, hx, hpx, hc⟩)
          · exact Or.inr ⟨slot, hs', x, hx, hpx, hc⟩
  rw [main data.slots ∅]
  simp only [Finset.not_mem_empty, false_or]
  constructor
  · rintro ⟨slot, hs, plug, hg, hpx, hc⟩
    rcases (mem_interfaceGroup data.plugs slot.interface plug).mp hg with ⟨h1, h2, h3⟩
    exact ⟨slot, hs, plug, h1, h2, h3, hpx, hc⟩
  · rintro ⟨slot, hs, plug, h1, h2, h3, hpx, hc⟩
    exact ⟨slot, hs, plug, (mem_interfaceGroup data.plugs slot.interface plug).mpr
      ⟨h1, h2, h3⟩, hpx, hc⟩

/-- C7: the resolver considers on the plug side exactly the plugs with no
existing connection (no `connections` key), grouped by interface name: a
candidate connection arises precisely from a slot and such a plug of the
same interface that every predicate accepts; a plug carrying a non-empty
`connections` list never contributes, and a single unconnected plug
matching two slots yields one candidate connection per slot. -/
theorem c7_plug_side_resolution :
    (∀ (preds : List Pred) (data : Topology) (c : Connection),
      c ∈ (connectorProcess preds data).1 ↔
        ∃ slot, slot ∈ data.slots ∧ ∃ plug, plug ∈ data.plugs ∧
          plug.connections = none ∧ plug.interface = slot.interface ∧
          pairAccept preds plug slot = true ∧ c = Connection.from_dicts plug slot) ∧
    ((connectorProcess (connectorPredicates [])
        ⟨[⟨"checkbox", "graphics", "content", none, none⟩],
         [⟨"mesa", "graphics", "content", none, none⟩,
          ⟨"mesa2", "graphics2", "content", none, none⟩]⟩).1
      = {⟨"checkbox", "graphics", "mesa", "graphics"⟩,
         ⟨"checkbox", "graphics", "mesa2", "graphics2"⟩}) ∧
    ((connectorProcess (connectorPredicates [])
        ⟨[⟨"checkbox", "graphics", "content", none, some [("mesa", "graphics")]⟩],
         [⟨"mesa", "graphics", "content", none, none⟩]⟩).1 = ∅) := by
  refine ⟨?_, by decide, by decide⟩
  intro preds data c
  rw [connectorProcess_eq]
  exact mem_connectorConnSet preds data c

/-- Loop congruence for `retry` over `BooleanResult` probes whose boolean
fields agree pointwise. -/
theorem retryAux_ok_congr (s₁ s₂ : Nat → BooleanResult)
    (h : ∀ i, (s₁ i).ok = (s₂ i).ok) :
    ∀ (waits : List ℚ) (c : Nat) (l₁ l₂ : BooleanResult) (slept : List ℚ),
      l₁.ok = l₂.ok →
      (retryAux s₁ BooleanResult.toBool waits c l₁ slept).1.ok
          = (retryAux s₂ BooleanResult.toBool waits c l₂ slept).1.ok ∧
      (retryAux s₁ BooleanResult.toBool waits c l₁ slept).2.1
          = (retryAux s₂ BooleanResult.toBool waits c l₂ slept).2.1 := by
  intro waits
  induction waits with
  | nil => intro c l₁ l₂ slept hl; exact ⟨hl, rfl⟩
  | cons w rest ih =>
    intro c l₁ l₂ slept hl
    simp only [retryAux, BooleanResult.toBool, h c]
    by_cases hb : (s₂ c).ok = true
    · rw [if_pos hb, if_pos hb]
      exact ⟨h c, rfl⟩
    · rw [if_neg hb, if_neg hb]
      exact ih (c + 1) (s₁ c) (s₂ c) (slept ++ [w]) (h c)

/-- C10: the boolean conversion of `BooleanResult` and of
`PredicateCheckResult` is exactly the boolean field, whatever the message
(absent, empty or non-empty); consequently the Retry Engine's behaviour
(success, call count) and the resolver's candidate set depend only on
those boolean fields, a `True` result with an empty message counting as
success and a `False` result with a non-empty message as failure. -/
theorem c10_truthiness_is_boolean_field :
    (∀ (ok : Bool) (msg : Option String), (BooleanResult.mk ok msg).toBool = ok) ∧
    (∀ (r : Bool) (msg : Option String), (PredicateCheckResult.mk r msg).toBool = r) ∧
    (∀ (s₁ s₂ : Nat → BooleanResult) (waits : List ℚ),
      (∀ i, (s₁ i).ok = (s₂ i).ok) →
      (retry s₁ BooleanResult.toBool waits).1.ok = (retry s₂ BooleanResult.toBool waits).1.ok ∧
      (retry s₁ BooleanResult.toBool waits).2.1 = (retry s₂ BooleanResult.toBool waits).2.1) ∧
    (∀ (preds₁ preds₂ : List Pred) (data : Topology),
      (∀ plug slot, (pairResults preds₁ plug slot).map (fun r => r.result)
          = (pairResults preds₂ plug slot).map (fun r => r.result)) →
      (connectorProcess preds₁ data).1 = (connectorProcess preds₂ data).1) ∧
    (retry (fun _ => BooleanResult.mk true (some "")) BooleanResult.toBool [0]
        = (⟨true, some ""⟩, 1, []) ∧
     retry (fun _ => BooleanResult.mk false (some "failed")) BooleanResult.toBool []
        = (⟨false, some "failed"⟩, 1, [])) := by
  refine ⟨fun ok msg => rfl, fun r msg => rfl, ?_, ?_, by decide, by decide⟩
  · intro s₁ s₂ waits h
    simp only [retry, BooleanResult.toBool, h 0]
    by_cases hb : (s₂ 0).ok = true
    · rw [if_pos hb, if_pos hb]
      exact ⟨h 0, rfl⟩
    · rw [if_neg hb, if_neg hb]
      exact retryAux_ok_congr s₁ s₂ h waits 1 (s₁ 0) (s₂ 0) [] (h 0)
  · intro preds₁ preds₂ data h
    have hallmap : ∀ l : List PredicateCheckResult,
        (l.all (fun r => r.result)) = ((l.map (fun r => r.result)).all id) := by
      intro l
      induction l with
      | nil => rfl
      | cons a l ih => simp [List.all_cons, ih]
    have haccept : ∀ plug slot, pairAccept preds₁ plug slot = pairAccept preds₂ plug slot := by
      intro plug slot
      rw [pairAccept, pairAccept, hallmap, hallmap, h plug slot]
    rw [connectorProcess_eq, connectorProcess_eq]
    apply Finset.ext
    intro c
    rw [mem_connectorConnSet, mem_connectorConnSet]
    constructor
    · rintro ⟨slot, hs, plug, h1, h2, h3, hpx, hc⟩
      exact ⟨slot, hs, plug, h1, h2, h3, (haccept plug slot).symm.trans hpx, hc⟩
    · rintro ⟨slot, hs, plug, h1, h2, h3, hpx, hc⟩
      exact ⟨slot, hs, plug, h1, h2, h3, (haccept plug slot).trans hpx, hc⟩

/-- C10 witness: two probes differing only in messages retry identically,
and two predicate lists differing only in messages resolve identically. -/
theorem c10_truthiness_is_boolean_field_witness :
    ((retry (fun _ => BooleanResult.mk false none) BooleanResult.toBool [0]).1.ok
        = (retry (fun _ => BooleanResult.mk false (some "x")) BooleanResult.toBool [0]).1.ok ∧
     (retry (fun _ => BooleanResult.mk false none) BooleanResult.toBool [0]).2.1
        = (retry (fun _ => BooleanResult.mk false (some "x")) BooleanResult.toBool [0]).2.1) ∧
    (connectorProcess [fun _ _ => ⟨true, none⟩]
        ⟨[⟨"a", "p", "i", none, none⟩], [⟨"b", "s", "i", none, none⟩]⟩).1
      = (connectorProcess [fun _ _ => ⟨true, some "m"⟩]
        ⟨[⟨"a", "p", "i", none, none⟩], [⟨"b", "s", "i", none, none⟩]⟩).1 := by
  constructor
  · exact c10_truthiness_is_boolean_field.2.2.1
      (fun _ => BooleanResult.mk false none) (fun _ => BooleanResult.mk false (some "x"))
      [0] (fun _ => rfl)
  · exact c10_truthiness_is_boolean_field.2.2.2.1
      [fun _ _ => ⟨true, none⟩] [fun _ _ => ⟨true, some "m"⟩]
      ⟨[⟨"a", "p", "i", none, none⟩], [⟨"b", "s", "i", none, none⟩]⟩
      (fun _ _ => rfl)

/-- C6 (evidence for the code bug): on a topology with two considered
pairs where a blacklist predicate rejects the first pair with a message,
`SnapConnector.process` returns only the raw message tuple of the last
pair — all `None` — while the `aggregate_messages` list its loop builds
(and which `Connector.process` in `snap_connections.py` logs) contains the
rejection message; the returned value omits it. -/
theorem c6_returned_messages_drop_aggregate :
    (snapConnectorProcess
        (connectorPredicates [blacklistCheck [⟨none, some "net", some "snapd", none⟩]])
        ⟨[⟨"checkbox", "net", "network", none, none⟩],
         [⟨"snapd", "network", "network", none, none⟩,
          ⟨"other", "network2", "network", none, none⟩]⟩
      = .ok ({⟨"checkbox", "net", "other", "network2"⟩}, [none, none, none])) ∧
    ((snapConnectorFold
        (connectorPredicates [blacklistCheck [⟨none, some "net", some "snapd", none⟩]])
        ⟨[⟨"checkbox", "net", "network", none, none⟩],
         [⟨"snapd", "network", "network", none, none⟩,
          ⟨"other", "network2", "network", none, none⟩]⟩).aggregate
      = ["Connection 'checkbox:net/snapd:network' is blacklisted"]) ∧
    ((connectorProcess
        (connectorPredicates [blacklistCheck [⟨none, some "net", some "snapd", none⟩]])
        ⟨[⟨"checkbox", "net", "network", none, none⟩],
         [⟨"snapd", "network", "network", none, none⟩,
          ⟨"other", "network2", "network", none, none⟩]⟩).2
      = ["Connection 'checkbox:net/snapd:network' is blacklisted"]) := by
  refine ⟨by decide, by decide, by decide⟩

/-! ## Change polling (C2) -/

/-- C2 (evidence for the code bug): a change list whose entries are all
ready reports completion without any reboot; but with a not-ready change
and the reboot-required marker present, the controller reboots and then
raises `AttributeError` looking up `wait_for_running` — a method
`SystemStatusInterface` does not define (it defines `wait_for_status`) —
instead of waiting for the device status and re-polling the changes. -/
theorem c2_reboot_path_attribute_error :
    (∀ (changes after : List Change) (marker : Bool),
        (∀ ch, ch ∈ changes → ch.ready = true) →
        check_snap_changes_complete_and_reboot changes after marker = ([], .ok true)) ∧
    (check_snap_changes_complete_and_reboot
        [⟨"42", false, "Doing", "auto-refresh of checkbox"⟩] [] true
      = ([.reboot], .error (.attributeError "SystemStatusInterface" "wait_for_running"))) ∧
    "wait_for_running" ∉ systemStatusMethods ∧
    "wait_for_status" ∈ systemStatusMethods := by
  refine ⟨?_, by decide, by decide, by decide⟩
  intro changes after marker h
  have hc : check_snap_changes_complete changes = true := by
    simp only [check_snap_changes_complete, List.all_eq_true]
    intro ch hch
    simpa using h ch hch
  simp [check_snap_changes_complete_and_reboot, hc]

/-- C2 witness: an all-ready change list reports completion with no
effects even when the reboot marker is present. -/
theorem c2_reboot_path_attribute_error_witness :
    check_snap_changes_complete_and_reboot [⟨"7", true, "Done", "install checkbox"⟩] [] true
      = ([], .ok true) :=
  c2_reboot_path_attribute_error.1 [⟨"7", true, "Done", "install checkbox"⟩] [] true
    (by decide)

/-! ## Capability registry (C8) -/

/-- `charListLeb` is total. -/
theorem charListLeb_total : ∀ as bs : List Char,
    charListLeb as bs = true ∨ charListLeb bs as = true := by
  intro as
  induction as with
  | nil => intro bs; exact Or.inl rfl
  | cons a as ih =>
    intro bs
    cases bs with
    | nil => exact Or.inr rfl
    | cons b bs =>
      simp only [charListLeb]
      rcases Nat.lt_trichotomy a.toNat b.toNat with h | h | h
      · left; rw [if_pos h]
      · rw [if_neg (by omega), if_neg (by omega), if_neg (by omega), if_neg (by omega)]
        exact ih bs
      · right; rw [if_pos h]

/-- `charListLeb` is transitive. -/
theorem charListLeb_trans : ∀ as bs cs : List Char,
    charListLeb as bs = true → charListLeb bs cs = true → charListLeb as cs = true := by
  intro as
  induction as with
  | nil => intro bs cs _ _; rfl
  | cons a as ih =>
    intro bs cs hab hbc
    cases bs with
    | nil => simp [charListLeb] at hab
    | cons b bs =>
      cases cs with
      | nil => simp [charListLeb] at hbc
      | cons c cs =>
        simp only [charListLeb] at hab hbc ⊢
        by_cases h1 : a.toNat < b.toNat
        · by_cases h2 : b.toNat < c.toNat
          · rw [if_pos (by omega)]
          · rw [if_neg h2] at hbc
            by_cases h3 : c.toNat < b.toNat
            · rw [if_pos h3] at hbc; exact absurd hbc (by simp)
            · rw [if_pos (by omega)]
        · rw [if_neg h1] at hab
          by_cases h4 : b.toNat < a.toNat
          · rw [if_pos h4] at hab; exact absurd hab (by simp)
          · rw [if_neg h4] at hab
            by_cases h2 : b.toNat < c.toNat
            · rw [if_pos (by omega)]
            · rw [if_neg h2] at hbc
              by_cases h3 : c.toNat < b.toNat
              · rw [if_pos h3] at hbc; exact absurd hbc (by simp)
              · rw [if_neg h3] at hbc
                rw [if_neg (by omega), if_neg (by omega)]
                exact ih bs cs hab hbc

/-- `strLeb` is total. -/
theorem strLeb_total (a b : String) : strLeb a b = true ∨ strLeb b a = true :=
  charListLeb_total a.toList b.toList

/-- `strLeb` is transitive. -/
theorem strLeb_trans {a b c : String} (h1 : strLeb a b = true) (h2 : strLeb b c = true) :
    strLeb a c = true :=
  charListLeb_trans a.toList b.toList c.toList h1 h2

/-- Sorted insertion permutes the inserted element to the front. -/
theorem insertSorted_perm (x : String) : ∀ l : List String,
    List.Perm (insertSorted x l) (x :: l) := by
  intro l
  induction l with
  | nil => exact List.Perm.refl _
  | cons y ys ih =>
    simp only [insertSorted]
    by_cases h : strLeb x y = true
    · rw [if_pos h]
    · rw [if_neg h]
      exact (List.Perm.cons y ih).trans (List.Perm.swap x y ys)

/-- Sorted insertion preserves sortedness. -/
theorem insertSorted_pairwise (x : String) : ∀ l : List String,
    List.Pairwise (fun a b => strLeb a b = true) l →
    List.Pairwise (fun a b => strLeb a b = true) (insertSorted x l) := by
  intro l
  induction l with
  | nil => intro _; exact List.pairwise_singleton _ x
  | cons y ys ih =>
    intro hp
    rcases List.pairwise_cons.mp hp with ⟨hy, hys⟩
    simp only [insertSorted]
    by_cases h : strLeb x y = true
    · rw [if_pos h]
      refine List.pairwise_cons.mpr ⟨?_, hp⟩
      intro z hz
      rcases List.mem_cons.mp hz with rfl | hz'
      · exact h
      · exact strLeb_trans h (hy z hz')
    · rw [if_neg h]
      refine List.pairwise_cons.mpr ⟨?_, ih hys⟩
      intro z hz
      have hz' := (insertSorted_perm x ys).mem_iff.mp hz
      rcases List.mem_cons.mp hz' with rfl | hz''
      · rcases strLeb_total z y with h1 | h1
        · exact absurd h1 h
        · exact h1
      · exact hy z hz''

/-- `sortStrings` permutes its input. -/
theorem sortStrings_perm : ∀ l : List String, List.Perm (sortStrings l) l := by
  intro l
  induction l with
  | nil => exact List.Perm.refl _
  | cons x l ih =>
    exact (insertSorted_perm x (sortStrings l)).trans (List.Perm.cons x ih)

/-- `sortStrings` sorts. -/
theorem sortStrings_pairwise : ∀ l : List String,
    List.Pairwise (fun a b => strLeb a b = true) (sortStrings l) := by
  intro l
  induction l with
  | nil => exact List.Pairwise.nil
  | cons x l ih => exact insertSorted_pairwise x (sortStrings l) ih

/-- Registering instances with pairwise distinct fresh names appends them
all to the registry. -/
theorem registerAll_ok : ∀ (insts : List InterfaceInst) (reg : List (String × InterfaceInst)),
    ((reg.map Prod.fst) ++ insts.map (fun i => i.name)).Nodup →
    registerAll insts reg = .ok (reg ++ insts.map (fun i => (i.name, i))) := by
  intro insts
  induction insts with
  | nil => intro reg _; simp [registerAll]
  | cons i rest ih =>
    intro reg h
    have hdisj := (List.nodup_append.mp h).2.2
    have hmem : i.name ∉ reg.map Prod.fst := by
      intro hc
      exact hdisj hc (by simp)
    have hcon : ¬ ((reg.map Prod.fst).contains i.name = true) := by
      simpa using hmem
    simp only [registerAll]
    rw [if_neg hcon]
    have h2 : (((reg ++ [(i.name, i)]).map Prod.fst) ++ rest.map (fun i => i.name)).Nodup := by
      simpa [List.append_assoc] using h
    rw [ih (reg ++ [(i.name, i)]) h2]
    simp

/-- With a duplicate name among the instances (and a clean registry so
far), registration fails with a duplicate error. -/
theorem registerAll_dup : ∀ (insts : List InterfaceInst) (reg : List (String × InterfaceInst)),
    ¬ ((reg.map Prod.fst) ++ insts.map (fun i => i.name)).Nodup →
    (reg.map Prod.fst).Nodup →
    ∃ n, registerAll insts reg = .error (.duplicate n) := by
  intro insts
  induction insts with
  | nil => intro reg h hreg; exact absurd (by simpa using hreg) h
  | cons i rest ih =>
    intro reg h hreg
    by_cases hc : (reg.map Prod.fst).contains i.name = true
    · refine ⟨i.name, ?_⟩
      simp only [registerAll]
      rw [if_pos hc]
    · have hmem : i.name ∉ reg.map Prod.fst := by simpa using hc
      have hreg' : ((reg ++ [(i.name, i)]).map Prod.fst).Nodup := by
        simp only [List.map_append, List.map_cons, List.map_nil]
        exact List.nodup_append.mpr ⟨hreg, List.nodup_singleton _,
          fun a ha hb => by simp at hb; exact hmem (hb ▸ ha)⟩
      have h' : ¬ (((reg ++ [(i.name, i)]).map Prod.fst) ++ rest.map (fun i => i.name)).Nodup := by
        intro hcontra
        exact h (by simpa [List.append_assoc] using hcontra)
      rcases ih (reg ++ [(i.name, i)]) h' hreg' with ⟨n, hn⟩
      refine ⟨n, ?_⟩
      simp only [registerAll]
      rw [if_neg (by simpa using hmem)]
      exact hn

/-- Looking an instance up by name in the freshly built registry. -/
theorem lookup_pairing : ∀ (insts : List InterfaceInst) (i : InterfaceInst),
    (insts.map (fun j => j.name)).Nodup → i ∈ insts →
    (insts.map (fun j => (j.name, j))).lookup i.name = some i := by
  intro insts
  induction insts with
  | nil => intro i _ hmem; simp at hmem
  | cons j rest ih =>
    intro i hnd hmem
    rcases List.mem_cons.mp hmem with rfl | hmem'
    · simp [List.lookup]
    · have hne : j.name ≠ i.name := by
        intro he
        have : i.name ∈ rest.map (fun k => k.name) := List.mem_map_of_mem _ hmem'
        rw [← he] at this
        exact (List.nodup_cons.mp hnd).1 this
      have hbeq : (i.name == j.name) = false := beq_eq_false_iff_ne.mpr (Ne.symm hne)
      simp only [List.map_cons, List.lookup, hbeq]
      exact ih i (List.nodup_cons.mp hnd).2 hmem'

/-- C8: constructing the registry with a duplicate type fails in every
order; with a missing declared requirement it fails naming every missing
type, sorted and deduplicated; and with every requirement present —
mutual requirements included — it succeeds and every instance is
retrievable by its type. -/
theorem c8_registry_validation :
    (∀ insts : List InterfaceInst, ¬ (insts.map (fun i => i.name)).Nodup →
        ∃ n, registryInit insts = .error (.duplicate n)) ∧
    (∀ insts : List InterfaceInst, (insts.map (fun i => i.name)).Nodup →
        missingOf (insts.map (fun i => (i.name, i))) ≠ [] →
        registryInit insts = .error (.missing (missingOf (insts.map (fun i => (i.name, i))))) ∧
        (missingOf (insts.map (fun i => (i.name, i)))).Nodup ∧
        List.Pairwise (fun a b => strLeb a b = true)
          (missingOf (insts.map (fun i => (i.name, i)))) ∧
        (∀ s, s ∈ missingOf (insts.map (fun i => (i.name, i))) ↔
          ((∃ i, i ∈ insts ∧ s ∈ i.requires) ∧ s ∉ insts.map (fun i => i.name)))) ∧
    (∀ insts : List InterfaceInst, (insts.map (fun i => i.name)).Nodup →
        (∀ i, i ∈ insts → ∀ r, r ∈ i.requires → r ∈ insts.map (fun i => i.name)) →
        registryInit insts = .ok (insts.map (fun i => (i.name, i))) ∧
        (∀ i, i ∈ insts → registryGet (insts.map (fun i => (i.name, i))) i.name = .ok i)) := by
  have hreqs : ∀ insts : List InterfaceInst,
      ((insts.map (fun i => (i.name, i))).flatMap (fun kv => kv.2.requires))
        = insts.flatMap (fun i => i.requires) := by
    intro insts
    induction insts with
    | nil => rfl
    | cons i rest ih => simp only [List.map_cons, List.flatMap_cons, ih]
  have hnames : ∀ insts : List InterfaceInst,
      ((insts.map (fun i => (i.name, i))).map Prod.fst) = insts.map (fun i => i.name) := by
    intro insts; simp [List.map_map, Function.comp]
  refine ⟨?_, ?_, ?_⟩
  · intro insts hdup
    rcases registerAll_dup insts [] (by simpa using hdup) (by simp) with ⟨n, hn⟩
    exact ⟨n, by simp [registryInit, hn]⟩
  · intro insts hnd hne
    have hreg : registerAll insts [] = .ok (insts.map (fun i => (i.name, i))) := by
      simpa using registerAll_ok insts [] (by simpa using hnd)
    have hmem : ∀ s, s ∈ missingOf (insts.map (fun i => (i.name, i))) ↔
        ((∃ i, i ∈ insts ∧ s ∈ i.requires) ∧ s ∉ insts.map (fun i => i.name)) := by
      intro s
      rw [missingOf, (sortStrings_perm _).mem_iff, List.mem_dedup, List.mem_filter]
      rw [hreqs, hnames]
      simp [List.mem_flatMap]
    refine ⟨?_, ?_, sortStrings_pairwise _, hmem⟩
    · have hne' : ¬ ((missingOf (insts.map (fun i => (i.name, i)))).isEmpty = true) := by
        simpa [List.isEmpty_iff] using hne
      simp only [registryInit, hreg, checkRequirements]
      rw [if_neg hne']
    · exact ((sortStrings_perm _).nodup_iff).mpr (List.nodup_dedup _)
  · intro insts hnd hall
    have hreg : registerAll insts [] = .ok (insts.map (fun i => (i.name, i))) := by
      simpa using registerAll_ok insts [] (by simpa using hnd)
    have hfilter : ((insts.map (fun i => (i.name, i))).flatMap (fun kv => kv.2.requires)).filter
        (fun r => !((insts.map (fun i => (i.name, i))).map Prod.fst).contains r) = [] := by
      rw [List.filter_eq_nil_iff]
      intro r hr
      rw [hreqs] at hr
      rcases List.mem_flatMap.mp hr with ⟨i, hi, hri⟩
      simp only [hnames]
      simpa using hall i hi r hri
    have hmiss : missingOf (insts.map (fun i => (i.name, i))) = [] := by
      rw [missingOf, hfilter, List.dedup_nil]
      rfl
    refine ⟨?_, ?_⟩
    · simp [registryInit, hreg, checkRequirements, hmiss]
    · intro i hi
      rw [registryGet, lookup_pairing insts i hnd hi]

/-- C8 witness: two mutually requiring capabilities register in either
order and are retrievable; a duplicate registration fails; a capability
requiring absent `C` and `B` fails naming both, sorted. -/
theorem c8_registry_validation_witness :
    registryInit [⟨"A", ["B"]⟩, ⟨"B", ["A"]⟩]
      = .ok [("A", ⟨"A", ["B"]⟩), ("B", ⟨"B", ["A"]⟩)] ∧
    registryInit [⟨"B", ["A"]⟩, ⟨"A", ["B"]⟩]
      = .ok [("B", ⟨"B", ["A"]⟩), ("A", ⟨"A", ["B"]⟩)] ∧
    registryGet [("A", ⟨"A", ["B"]⟩), ("B", ⟨"B", ["A"]⟩)] "B" = .ok ⟨"B", ["A"]⟩ ∧
    (∃ n, registryInit [⟨"A", []⟩, ⟨"A", []⟩] = .error (.duplicate n)) ∧
    registryInit [⟨"A", ["C", "B"]⟩] = .error (.missing ["B", "C"]) := by
  refine ⟨?_, ?_, ?_, ?_, ?_⟩
  · exact ((c8_registry_validation.2.2 [⟨"A", ["B"]⟩, ⟨"B", ["A"]⟩] (by decide)
      (by decide)).1).trans (by decide)
  · exact ((c8_registry_validation.2.2 [⟨"B", ["A"]⟩, ⟨"A", ["B"]⟩] (by decide)
      (by decide)).1).trans (by decide)
  · exact ((c8_registry_validation.2.2 [⟨"A", ["B"]⟩, ⟨"B", ["A"]⟩] (by decide)
      (by decide)).2 ⟨"B", ["A"]⟩ (by decide)).trans (by decide)
  · exact c8_registry_validation.1 [⟨"A", []⟩, ⟨"A", []⟩] (by decide)
  · exact ((c8_registry_validation.2.1 [⟨"A", ["C", "B"]⟩] (by decide)
      (by decide)).1).trans (by decide)

/-! ## Request building (C5) -/

/-- Splitting at the first separator occurrence. -/
theorem splitOnChar_append (sep : Char) :
    ∀ (a b : List Char), sep ∉ a →
      splitOnChar sep (a ++ sep :: b) = a :: splitOnChar sep b := by
  intro a
  induction a with
  | nil => intro b _; simp [splitOnChar]
  | cons c a ih =>
    intro b h
    have hc : ¬ (c = sep) := fun he => h (he ▸ List.mem_cons_self c a)
    have ha : sep ∉ a := fun he => h (List.mem_cons_of_mem c he)
    simp only [List.cons_append, splitOnChar, List.append_eq]
    rw [ih b ha, if_neg hc]
    simp

/-- A separator-free text splits into itself. -/
theorem splitOnChar_of_not_mem (sep : Char) :
    ∀ a : List Char, sep ∉ a → splitOnChar sep a = [a] := by
  intro a
  induction a with
  | nil => intro _; rfl
  | cons c a ih =>
    intro h
    have hc : ¬ (c = sep) := fun he => h (he ▸ List.mem_cons_self c a)
    simp only [splitOnChar]
    rw [ih (fun he => h (List.mem_cons_of_mem c he)), if_neg hc]
    simp

/-- A lookup in a character table yields a table entry or the default. -/
theorem getD_mem_or (l : List Char) (n : Nat) (d : Char) :
    l.getD n d ∈ l ∨ l.getD n d = d := by
  rw [List.getD_eq_getD_get?]
  cases h : l.get? n with
  | none => simp
  | some c =>
    left
    simp only [h, Option.getD_some]
    exact List.get?_mem h

/-- Every uppercase hex digit character is in the table. -/
theorem hexDigitCharUpper_mem (d : Nat) : hexDigitCharUpper d ∈ hexTableUpper := by
  rcases getD_mem_or hexTableUpper d '0' with h | h
  · exact h
  · rw [hexDigitCharUpper, h]; decide

/-- Characters emitted by `quote_plus`: a plus, a safe character, a
percent sign or an uppercase hex digit. -/
theorem mem_quotePlus (s : List Char) (c : Char) (h : c ∈ quotePlus s) :
    c = '+' ∨ isUrlSafe c = true ∨ c = '%' ∨ c ∈ hexTableUpper := by
  rcases List.mem_flatMap.mp h with ⟨x, _, hc⟩
  by_cases h1 : x = ' '
  · rw [if_pos h1] at hc
    exact Or.inl (by simpa using hc)
  · rw [if_neg h1] at hc
    by_cases h2 : isUrlSafe x = true
    · rw [if_pos h2] at hc
      have : c = x := by simpa using hc
      exact Or.inr (Or.inl (this ▸ h2))
    · rw [if_neg h2] at hc
      rcases List.mem_flatMap.mp hc with ⟨b, _, hcb⟩
      simp only [List.mem_cons, List.not_mem_nil, or_false] at hcb
      rcases hcb with rfl | rfl | rfl
      · exact Or.inr (Or.inr (Or.inl rfl))
      · exact Or.inr (Or.inr (Or.inr (hexDigitCharUpper_mem _)))
      · exact Or.inr (Or.inr (Or.inr (hexDigitCharUpper_mem _)))

/-- Characters of an ampersand join come from the separator or a part. -/
theorem mem_joinAmp : ∀ (parts : List (List Char)) (c : Char), c ∈ joinAmp parts →
    c = '&' ∨ ∃ p, p ∈ parts ∧ c ∈ p := by
  intro parts
  induction parts with
  | nil => intro c h; simp [joinAmp] at h
  | cons p rest ih =>
    intro c h
    cases rest with
    | nil => exact Or.inr ⟨p, List.mem_cons_self p [], by simpa [joinAmp] using h⟩
    | cons q rs =>
      have h' : c ∈ p ∨ c = '&' ∨ c ∈ joinAmp (q :: rs) := by simpa [joinAmp] using h
      rcases h' with h1 | h1 | h1
      · exact Or.inr ⟨p, List.mem_cons_self _ _, h1⟩
      · exact Or.inl h1
      · rcases ih c h1 with h3 | ⟨r, hr, hcr⟩
        · exact Or.inl h3
        · exact Or.inr ⟨r, List.mem_cons_of_mem p hr, hcr⟩

/-- Characters emitted by `urlencode(..., doseq=True)`. -/
theorem mem_urlencodeDoseq (params : List (List Char × ParamValue)) (c : Char)
    (h : c ∈ urlencodeDoseq params) :
    c = '&' ∨ c = '=' ∨ c = '+' ∨ isUrlSafe c = true ∨ c = '%' ∨ c ∈ hexTableUpper := by
  rcases mem_joinAmp _ c h with h1 | ⟨p, hp, hcp⟩
  · exact Or.inl h1
  · rcases List.mem_flatMap.mp hp with ⟨kv, _, hkv⟩
    have hshape : ∃ k v, p = quotePlus k ++ '=' :: quotePlus v := by
      cases hv : kv.2 with
      | str v =>
        rw [hv] at hkv
        exact ⟨kv.1, v, by simpa using hkv⟩
      | seq vs =>
        rw [hv] at hkv
        rcases List.mem_map.mp hkv with ⟨v, _, hveq⟩
        exact ⟨kv.1, v, hveq.symm⟩
    rcases hshape with ⟨k, v, rfl⟩
    rcases List.mem_append.mp hcp with h2 | h2
    · rcases mem_quotePlus k c h2 with h3 | h3 | h3 | h3
      · exact Or.inr (Or.inr (Or.inl h3))
      · exact Or.inr (Or.inr (Or.inr (Or.inl h3)))
      · exact Or.inr (Or.inr (Or.inr (Or.inr (Or.inl h3))))
      · exact Or.inr (Or.inr (Or.inr (Or.inr (Or.inr h3))))
    · rcases List.mem_cons.mp h2 with rfl | h3
      · exact Or.inr (Or.inl rfl)
      · rcases mem_quotePlus v c h3 with h4 | h4 | h4 | h4
        · exact Or.inr (Or.inr (Or.inl h4))
        · exact Or.inr (Or.inr (Or.inr (Or.inl h4)))
        · exact Or.inr (Or.inr (Or.inr (Or.inr (Or.inl h4))))
        · exact Or.inr (Or.inr (Or.inr (Or.inr (Or.inr h4))))

/-- The encoded query contains no line-break characters. -/
theorem urlencode_no_break (params : List (List Char × ParamValue)) :
    '\n' ∉ urlencodeDoseq params ∧ '\x0d' ∉ urlencodeDoseq params := by
  constructor
  · intro h
    rcases mem_urlencodeDoseq params '\n' h with h1 | h1 | h1 | h1 | h1 | h1 <;> revert h1 <;> decide
  · intro h
    rcases mem_urlencodeDoseq params '\x0d' h with h1 | h1 | h1 | h1 | h1 | h1 <;> revert h1 <;> decide

/-- No line break occurs in the target line before its terminator. -/
theorem request_url_no_break (endpoint : List Char) (params : List (List Char × ParamValue)) :
    ('\n' ∉ endpoint → '\n' ∉ create_get_request_url endpoint params) ∧
    ('\x0d' ∉ endpoint → '\x0d' ∉ create_get_request_url endpoint params) := by
  constructor
  · intro he h
    rcases List.mem_append.mp h with h1 | h1
    · rcases List.mem_append.mp h1 with h2 | h2
      · revert h2; decide
      · exact he h2
    · by_cases hp : params.isEmpty
      · rw [if_pos hp] at h1; simp at h1
      · rw [if_neg hp] at h1
        rcases List.mem_cons.mp h1 with h2 | h2
        · exact absurd h2 (by decide)
        · exact (urlencode_no_break params).1 h2
  · intro he h
    rcases List.mem_append.mp h with h1 | h1
    · rcases List.mem_append.mp h1 with h2 | h2
      · revert h2; decide
      · exact he h2
    · by_cases hp : params.isEmpty
      · rw [if_pos hp] at h1; simp at h1
      · rw [if_neg hp] at h1
        rcases List.mem_cons.mp h1 with h2 | h2
        · exact absurd h2 (by decide)
        · exact (urlencode_no_break params).2 h2

/-- C5 counterexample: the request built for endpoint `snaps` with no
parameters is LF-terminated and contains no carriage return at all, so
its lines are not CRLF-terminated as claimed. -/
theorem c5_crlf_counterexample :
    create_get_request (create_get_request_url "snaps".toList [])
      = "GET /v2/snaps HTTP/1.1\nHost: snapd.socket\nConnection: close\n\n".toList ∧
    '\x0d' ∉ create_get_request (create_get_request_url "snaps".toList []) := by
  exact ⟨rfl, by decide⟩

/-- C5 amended: the built request text is the target line
`GET /v2/<endpoint>[?<urlencoded-params>]` followed by ` HTTP/1.1`, then a
`Host:` line, then `Connection: close`, then a blank line, with every line
LF-terminated (no CR anywhere when the endpoint has none); list-valued
parameters are encoded as repeated keys. -/
theorem c5_request_format_amended :
    (∀ (endpoint : List Char) (params : List (List Char × ParamValue)),
      '\n' ∉ endpoint →
      splitOnChar '\n' (create_get_request (create_get_request_url endpoint params))
        = [create_get_request_url endpoint params ++ " HTTP/1.1".toList,
           "Host: snapd.socket".toList, "Connection: close".toList, [], []]) ∧
    (∀ (endpoint : List Char) (params : List (List Char × ParamValue)),
      create_get_request_url endpoint params
        = "GET /v2/".toList ++ endpoint ++
            (if params.isEmpty then [] else '?' :: urlencodeDoseq params)) ∧
    (∀ (endpoint : List Char) (params : List (List Char × ParamValue)),
      '\x0d' ∉ endpoint →
      '\x0d' ∉ create_get_request (create_get_request_url endpoint params)) ∧
    (urlencodeDoseq [("snaps".toList, .seq ["a b".toList, "c".toList]),
        ("select".toList, .str "all".toList)]
      = "snaps=a+b&snaps=c&select=all".toList) := by
  refine ⟨?_, fun endpoint params => rfl, ?_, by decide⟩
  · intro endpoint params he
    have hurl : '\n' ∉ create_get_request_url endpoint params :=
      (request_url_no_break endpoint params).1 he
    have hsplit : create_get_request (create_get_request_url endpoint params)
        = (create_get_request_url endpoint params ++ " HTTP/1.1".toList) ++ '\n' ::
            ("Host: snapd.socket".toList ++ '\n' ::
              ("Connection: close".toList ++ '\n' :: ('\n' :: []))) := by
      rw [create_get_request]
      rw [show " HTTP/1.1\nHost: snapd.socket\nConnection: close\n\n".toList
        = " HTTP/1.1".toList ++ '\n' :: ("Host: snapd.socket".toList ++ '\n' ::
            ("Connection: close".toList ++ '\n' :: ('\n' :: []))) from rfl]
      simp [List.append_assoc]
    rw [hsplit]
    rw [splitOnChar_append '\n' _ _ (by
      intro h
      rcases List.mem_append.mp h with h1 | h1
      · exact hurl h1
      · revert h1; decide)]
    rw [splitOnChar_append '\n' _ _ (by decide)]
    rw [splitOnChar_append '\n' _ _ (by decide)]
    rw [show ('\n' :: [] : List Char) = [] ++ '\n' :: [] from rfl]
    rw [splitOnChar_append '\n' [] [] (by decide)]
    rfl
  · intro endpoint params he h
    rcases List.mem_append.mp h with h1 | h1
    · exact (request_url_no_break endpoint params).2 he h1
    · revert h1; decide

/-- C5 witness: the request for endpoint `snaps` with a `select=all`
parameter splits into exactly the claimed LF-terminated lines and
contains no CR. -/
theorem c5_request_format_amended_witness :
    splitOnChar '\n' (create_get_request (create_get_request_url "snaps".toList
        [("select".toList, .str "all".toList)]))
      = ["GET /v2/snaps?select=all HTTP/1.1".toList,
         "Host: snapd.socket".toList, "Connection: close".toList, [], []] ∧
    '\x0d' ∉ create_get_request (create_get_request_url "snaps".toList
        [("select".toList, .str "all".toList)]) := by
  constructor
  · exact (c5_request_format_amended.1 "snaps".toList
      [("select".toList, .str "all".toList)] (by decide)).trans (by decide)
  · exact c5_request_format_amended.2.2.1 "snaps".toList
      [("select".toList, .str "all".toList)] (by decide)

/-! ## Chunked transfer decoding (C4) -/

/-- Hex digit characters round-trip through `hexDigitVal`. -/
theorem hexDigitVal_hexDigitChar (d : Nat) (h : d < 16) :
    hexDigitVal (hexDigitChar d) = some d := by
  interval_cases d <;> rfl

/-- `parseHexAux` distributes over append. -/
theorem parseHexAux_append : ∀ (xs ys : List Char) (acc : Nat),
    parseHexAux acc (xs ++ ys) = (parseHexAux acc xs).bind (fun a => parseHexAux a ys) := by
  intro xs
  induction xs with
  | nil => intro ys acc; rfl
  | cons c cs ih =>
    intro ys acc
    simp only [List.cons_append, parseHexAux]
    cases hexDigitVal c with
    | none => rfl
    | some d => exact ih ys (16 * acc + d)

/-- Folding the hex rendering of `n` recovers `n` (with the accumulator
shifted past its digits). -/
theorem parseHexAux_natToHexAux : ∀ (fuel n acc : Nat), n ≤ fuel →
    parseHexAux acc ((natToHexAux fuel n).reverse)
      = some (acc * 16 ^ (natToHexAux fuel n).length + n) := by
  intro fuel
  induction fuel with
  | zero =>
    intro n acc h
    have : n = 0 := by omega
    subst this
    simp [natToHexAux, parseHexAux]
  | succ fuel ih =>
    intro n acc h
    by_cases hn : n = 0
    · subst hn; simp [natToHexAux, parseHexAux]
    · simp only [natToHexAux, if_neg hn, List.reverse_cons, List.length_cons]
      rw [parseHexAux_append]
      have hdiv : n / 16 ≤ fuel := by
        have := Nat.div_lt_self (Nat.pos_of_ne_zero hn) (by norm_num : 1 < 16)
        omega
      rw [ih (n / 16) acc hdiv]
      show parseHexAux _ [hexDigitChar (n % 16)] = _
      simp only [parseHexAux, hexDigitVal_hexDigitChar (n % 16) (Nat.mod_lt n (by norm_num))]
      congr 1
      calc 16 * (acc * 16 ^ (natToHexAux fuel (n / 16)).length + n / 16) + n % 16
          = acc * (16 ^ (natToHexAux fuel (n / 16)).length * 16)
              + (16 * (n / 16) + n % 16) := by ring
        _ = acc * 16 ^ ((natToHexAux fuel (n / 16)).length + 1) + n := by
              rw [Nat.div_add_mod, ← pow_succ]

/-- For a positive `n` the hex rendering is non-empty. -/
theorem natToHexAux_ne_nil (fuel n : Nat) (hf : n ≤ fuel) (hn : n ≠ 0) :
    natToHexAux fuel n ≠ [] := by
  cases fuel with
  | zero => omega
  | succ f => simp [natToHexAux, if_neg hn]

/-- The hex rendering parses back to its value. -/
theorem parseHexDigits_natToHex (n : Nat) : parseHexDigits (natToHex n) = some n := by
  by_cases hn : n = 0
  · subst hn; rfl
  · rw [natToHex, if_neg hn]
    have hne : (natToHexAux n n).reverse ≠ [] := by
      simpa using natToHexAux_ne_nil n n le_rfl hn
    rcases hl : (natToHexAux n n).reverse with _ | ⟨c, cs⟩
    · exact absurd hl hne
    · have : parseHexDigits (c :: cs) = parseHexAux 0 (c :: cs) := rfl
      rw [this, ← hl, parseHexAux_natToHexAux n n 0 le_rfl]
      simp

/-- Every character of a hex rendering is a hex digit. -/
theorem natToHex_subset_hexTable (n : Nat) : ∀ c, c ∈ natToHex n → c ∈ hexTable := by
  have hchar : ∀ d : Nat, hexDigitChar d ∈ hexTable := by
    intro d
    rcases getD_mem_or hexTable d '0' with h1 | h1
    · exact h1
    · rw [hexDigitChar, h1]; decide
  have haux : ∀ (fuel m : Nat) (c : Char), c ∈ natToHexAux fuel m → c ∈ hexTable := by
    intro fuel
    induction fuel with
    | zero => intro m c h; simp [natToHexAux] at h
    | succ f ih =>
      intro m c h
      by_cases hm : m = 0
      · subst hm; simp [natToHexAux] at h
      · rw [natToHexAux, if_neg hm] at h
        rcases List.mem_cons.mp h with rfl | h'
        · exact hchar (m % 16)
        · exact ih (m / 16) c h'
  intro c h
  by_cases hn : n = 0
  · subst hn
    rw [natToHex] at h
    simp at h
    rw [h]; decide
  · rw [natToHex, if_neg hn, List.mem_reverse] at h
    exact haux n n c h

/-- `dropWhile` is the identity on lists with no matching character. -/
theorem dropWhile_eq_self_of_none (p : Char → Bool) :
    ∀ l : List Char, (∀ c, c ∈ l → p c = false) → l.dropWhile p = l := by
  intro l h
  cases l with
  | nil => rfl
  | cons c cs =>
    rw [List.dropWhile_cons, if_neg (by simp [h c (List.mem_cons_self c cs)])]

/-- `pyStrip` is the identity on whitespace-free text. -/
theorem pyStrip_eq_self (l : List Char) (h : ∀ c, c ∈ l → pyIsSpace c = false) :
    pyStrip l = l := by
  rw [pyStrip, dropWhile_eq_self_of_none pyIsSpace l h,
    dropWhile_eq_self_of_none pyIsSpace l.reverse (fun c hc => h c (List.mem_reverse.mp hc)),
    List.reverse_reverse]

/-- `int(_, 16)` inverts the hex rendering. -/
theorem pyIntHex_natToHex (n : Nat) : pyIntHex (natToHex n) = some (n : Int) := by
  have htab : ∀ c, c ∈ natToHex n → c ∈ hexTable := natToHex_subset_hexTable n
  have hns : ∀ c ∈ hexTable, pyIsSpace c = false := by decide
  have hstrip : pyStrip (natToHex n) = natToHex n :=
    pyStrip_eq_self _ (fun c hc => hns c (htab c hc))
  have hbody : parseHexBody (natToHex n) = some n := by
    unfold parseHexBody
    split
    · next rest heq => exact absurd (htab 'x' (by rw [heq]; simp)) (by decide)
    · next rest heq => exact absurd (htab 'X' (by rw [heq]; simp)) (by decide)
    · exact parseHexDigits_natToHex n
  unfold pyIntHex
  rw [hstrip]
  split
  · next ds heq => exact absurd (htab '-' (by rw [heq]; simp)) (by decide)
  · next ds heq => exact absurd (htab '+' (by rw [heq]; simp)) (by decide)
  · next ds h1 h2 =>
    rw [hbody]
    rfl

/-- `splitLineOnce` splits at an LF that terminates break-free text. -/
theorem splitLineOnce_append :
    ∀ (a b : List Char), (∀ c, c ∈ a → c ≠ '\n' ∧ c ≠ '\x0d') →
      splitLineOnce (a ++ '\n' :: b) = some (a, b) := by
  intro a
  induction a with
  | nil => intro b _; rfl
  | cons c cs ih =>
    intro b h
    have hc := h c (List.mem_cons_self c cs)
    simp only [List.cons_append]
    unfold splitLineOnce
    split
    · next heq => exact absurd heq (by simp)
    · next rest heq => exact absurd (List.cons.inj heq).1 hc.1
    · next rest heq => exact absurd (List.cons.inj heq).1 hc.2
    · next x c' rest hn1 hn2 heq =>
      obtain ⟨e1, e2⟩ := List.cons.inj heq
      subst e1
      subst e2
      rw [ih b (fun y hy => h y (List.mem_cons_of_mem c hy))]
      rfl

/-- `pyLstrip` drops a leading LF. -/
theorem pyLstrip_cons_lf (l : List Char) : pyLstrip ('\n' :: l) = pyLstrip l := by
  rw [pyLstrip, pyLstrip, List.dropWhile_cons, if_pos (by decide)]

/-- A hex rendering starts with a hex digit. -/
theorem natToHex_head (n : Nat) : ∃ d ds, natToHex n = d :: ds ∧ d ∈ hexTable := by
  by_cases hn : n = 0
  · subst hn; exact ⟨'0', [], rfl, by decide⟩
  · have hne : natToHex n ≠ [] := by
      rw [natToHex, if_neg hn]
      simpa using natToHexAux_ne_nil n n le_rfl hn
    rcases hl : natToHex n with _ | ⟨d, ds⟩
    · exact absurd hl hne
    · exact ⟨d, ds, rfl, natToHex_subset_hexTable n d (by rw [hl]; simp)⟩

/-- One encoding step: size line, terminator, payload, terminator, rest. -/
theorem encodeChunked_cons (c : List Char) (rest : List (List Char)) :
    encodeChunked (c :: rest)
      = natToHex c.length ++ '\n' :: (c ++ '\n' :: encodeChunked rest) := by
  simp [encodeChunked, List.append_assoc]

/-- `pyLstrip` leaves an encoded chunk stream unchanged: its first
character is a hex digit or the final zero, never whitespace. -/
theorem pyLstrip_encodeChunked (chunks : List (List Char)) :
    pyLstrip (encodeChunked chunks) = encodeChunked chunks := by
  cases chunks with
  | nil => decide
  | cons c rest =>
    rw [encodeChunked_cons]
    rcases natToHex_head c.length with ⟨d, ds, hd, hmem⟩
    rw [hd]
    have hns : ∀ x ∈ hexTable, pyIsSpace x = false := by decide
    simp only [List.cons_append, pyLstrip, List.dropWhile_cons]
    rw [if_neg (by simp [hns d hmem])]

/-- Decoding inverts encoding: the loop accumulates exactly the payloads. -/
theorem parseChunkedAux_encodeChunked :
    ∀ (chunks : List (List Char)), (∀ c ∈ chunks, c ≠ []) →
    ∀ (fuel : Nat) (parts : List (List Char)), chunks.length < fuel →
      parseChunkedAux fuel (encodeChunked chunks) parts
        = .ok (parts.flatten ++ chunks.flatten) := by
  intro chunks
  induction chunks with
  | nil =>
    intro _ fuel parts hf
    obtain ⟨f, rfl⟩ : ∃ f, fuel = f + 1 := ⟨fuel - 1, by omega⟩
    have h1 : parseChunkedAux (f + 1) (encodeChunked []) parts = .ok parts.flatten := rfl
    rw [h1]
    simp
  | cons c rest ih =>
    intro hne fuel parts hf
    obtain ⟨f, rfl⟩ : ∃ f, fuel = f + 1 := ⟨fuel - 1, by omega⟩
    have hcne : c ≠ [] := hne c (List.mem_cons_self c rest)
    have hlen : 0 < c.length := List.length_pos.mpr hcne
    rw [encodeChunked_cons]
    have htab := natToHex_subset_hexTable c.length
    have hnb : ∀ x, x ∈ natToHex c.length → x ≠ '\n' ∧ x ≠ '\x0d' := by
      intro x hx
      have hmem := htab x hx
      refine ⟨fun he => ?_, fun he => ?_⟩
      · subst he; revert hmem; decide
      · subst he; revert hmem; decide
    have h1 : splitLineOnce (natToHex c.length ++ '\n' :: (c ++ '\n' :: encodeChunked rest))
        = some (natToHex c.length, c ++ '\n' :: encodeChunked rest) :=
      splitLineOnce_append _ _ hnb
    have hple : ¬ ((c.length : Int) ≤ 0) := by omega
    simp only [parseChunkedAux, h1, pyIntHex_natToHex c.length, if_neg hple]
    rw [show ((c.length : Int)).toNat = c.length from rfl]
    rw [List.take_left, List.drop_left]
    rw [pyLstrip_cons_lf, pyLstrip_encodeChunked]
    rw [ih (fun x hx => hne x (List.mem_cons_of_mem c hx)) f (parts ++ [c]) (by
      simp only [List.length_cons] at hf
      omega)]
    simp

/-- Encoded streams are at least as long as their chunk count. -/
theorem length_le_encodeChunked : ∀ chunks : List (List Char),
    chunks.length ≤ (encodeChunked chunks).length := by
  intro chunks
  induction chunks with
  | nil => simp [encodeChunked]
  | cons c rest ih =>
    rw [encodeChunked_cons]
    simp only [List.length_append, List.length_cons]
    omega

/-- C4 counterexample: the stream `"1\na0\n"` is malformed — after the
one-character payload `"a"` no line terminator follows — yet the decoder
accepts it and returns `"a"`, because `lstrip` tolerates the missing
terminator and the stray `"0"` parses as a zero size line; so not every
malformed chunk stream fails. -/
theorem c4_malformed_stream_counterexample :
    wfChunked "1\na0\n".toList = false ∧
    parse_chunked_body "1\na0\n".toList = .ok "a".toList := ⟨by decide, by decide⟩

/-- C4 amended: chunk decoding reads a hex size line, consumes that many
characters of payload, skips the line terminator and repeats until a
zero-size chunk, concatenating payloads — the LF example and its CRLF
variant both decode to `"hello world"`, and decoding inverts encoding —
and a truncated stream (every proper prefix of the example, or any stream
whose expected size line never terminates) fails with a `ValueError`,
though a malformed stream whose stray characters form a valid size line
can decode without error (see the counterexample) and the failure is a
`ValueError` rather than the client's typed protocol error. -/
theorem c4_chunk_decoding_amended :
    parse_chunked_body "5\nhello\n6\n world\n0\n".toList = .ok "hello world".toList ∧
    parse_chunked_body "5\x0d\nhello\x0d\n6\x0d\n world\x0d\n0\x0d\n".toList
      = .ok "hello world".toList ∧
    (∀ chunks : List (List Char), (∀ c ∈ chunks, c ≠ []) →
        parse_chunked_body (encodeChunked chunks) = .ok chunks.flatten) ∧
    (∀ k, k < "5\nhello\n6\n world\n0\n".toList.length →
        parse_chunked_body (("5\nhello\n6\n world\n0\n".toList).take k)
          = .error .valueError) ∧
    (∀ s : List Char, splitLineOnce s = none →
        parse_chunked_body s = .error .valueError) := by
  refine ⟨by decide, by decide, ?_, by decide, ?_⟩
  · intro chunks h
    rw [parse_chunked_body]
    rw [parseChunkedAux_encodeChunked chunks h _ []
      (by have := length_le_encodeChunked chunks; omega)]
    simp
  · intro s hs
    rw [parse_chunked_body]
    simp only [parseChunkedAux, hs]

/-- C4 witness: a two-chunk stream round-trips, and a stream with no line
terminator at all fails. -/
theorem c4_chunk_decoding_amended_witness :
    parse_chunked_body (encodeChunked ["ab".toList, "c".toList]) = .ok "abc".toList ∧
    parse_chunked_body "no newline here".toList = .error .valueError := by
  constructor
  · exact (c4_chunk_decoding_amended.2.2.1 ["ab".toList, "c".toList] (by decide)).trans
      (by decide)
  · exact c4_chunk_decoding_amended.2.2.2.2 "no newline here".toList (by decide)

/-! ## Response dispatch (C3) -/

/-- A blank-line-free head keeps its tail's split result. -/
theorem splitBlankOnce_cons_none {c : Char} {cs : List Char}
    (h : splitBlankOnce (c :: cs) = none) : splitBlankOnce cs = none := by
  unfold splitBlankOnce at h
  split at h
  · next heq => exact absurd heq (by simp)
  · exact absurd h (by simp)
  · exact absurd h (by simp)
  · next x c' rest hn1 hn2 heq =>
    obtain ⟨e1, e2⟩ := List.cons.inj heq
    rw [e2]
    exact Option.map_eq_none'.mp h

/-- `splitBlankOnce` splits exactly at an appended blank-line separator
when the document itself has no blank-line boundary, no carriage return,
and does not end in a line feed. -/
theorem splitBlankOnce_append :
    ∀ (d rest : List Char), '\x0d' ∉ d → splitBlankOnce d = none →
      d.getLast? ≠ some '\n' →
      splitBlankOnce (d ++ '\n' :: '\n' :: rest) = some (d, rest) := by
  intro d
  induction d with
  | nil => intro rest _ _ _; rfl
  | cons c cs ih =>
    intro rest hcr hnone hlast
    have hccr : c ≠ '\x0d' := fun he => hcr (he ▸ List.mem_cons_self c cs)
    simp only [List.cons_append]
    unfold splitBlankOnce
    split
    · next heq => exact absurd heq (by simp)
    · next r heq =>
      obtain ⟨e1, e2⟩ := List.cons.inj heq
      cases cs with
      | nil => exact absurd (by simp [e1] : ([c] : List Char).getLast? = some '\n') hlast
      | cons c2 cs' =>
        have e3 : c2 = '\n' := (List.cons.inj e2).1
        rw [e1, e3] at hnone
        exact absurd hnone (by simp [splitBlankOnce])
    · next r heq => exact absurd (List.cons.inj heq).1 hccr
    · next x c' r hn1 hn2 heq =>
      obtain ⟨e1, e2⟩ := List.cons.inj heq
      subst e1
      subst e2
      have hcs : splitBlankOnce cs = none := splitBlankOnce_cons_none hnone
      have hlast' : cs.getLast? ≠ some '\n' := by
        cases cs with
        | nil => simp
        | cons c2 cs' => simpa using hlast
      rw [ih rest (fun hx => hcr (List.mem_cons_of_mem c hx)) hcs hlast']
      rfl

/-- Splitting a blank-line-joined document list recovers the documents
plus the trailing empty segment. -/
theorem splitBlankAllAux_join :
    ∀ (docs : List (List Char)),
      (∀ d, d ∈ docs → '\x0d' ∉ d ∧ splitBlankOnce d = none ∧ d.getLast? ≠ some '\n') →
      ∀ fuel, docs.length < fuel →
        splitBlankAllAux fuel ((docs.map (fun d => d ++ ['\n', '\n'])).flatten)
          = docs ++ [[]] := by
  intro docs
  induction docs with
  | nil =>
    intro _ fuel hf
    obtain ⟨f, rfl⟩ : ∃ f, fuel = f + 1 := ⟨fuel - 1, by omega⟩
    rfl
  | cons d ds ih =>
    intro h fuel hf
    obtain ⟨f, rfl⟩ : ∃ f, fuel = f + 1 := ⟨fuel - 1, by omega⟩
    rcases h d (List.mem_cons_self d ds) with ⟨h1, h2, h3⟩
    have hjoin : ((d :: ds).map (fun d => d ++ ['\n', '\n'])).flatten
        = d ++ '\n' :: '\n' :: ((ds.map (fun d => d ++ ['\n', '\n'])).flatten) := by
      simp [List.append_assoc]
    rw [hjoin]
    have hsplit := splitBlankOnce_append d
      ((ds.map (fun d => d ++ ['\n', '\n'])).flatten) h1 h2 h3
    simp only [splitBlankAllAux, hsplit]
    rw [ih (fun x hx => h x (List.mem_cons_of_mem d hx)) f (by
      simp only [List.length_cons] at hf
      omega)]
    rfl

/-- Joined documents are at least as many characters as documents. -/
theorem length_le_joinDocs : ∀ docs : List (List Char),
    docs.length ≤ ((docs.map (fun d => d ++ ['\n', '\n'])).flatten).length := by
  intro docs
  induction docs with
  | nil => simp
  | cons d ds ih =>
    simp only [List.map_cons, List.flatten_cons, List.length_append, List.length_cons]
    simp at ih ⊢
    omega

/-- C3: for every parsed response, dispatch rejects a non-200 status with
an error naming the code (and the reason when present); on
`application/json` it returns the `result` field of the parsed body and
turns a missing or unparseable JSON payload into a protocol error; on the
assertion content type it splits the body at blank-line boundaries into
independently parsed documents and drops the trailing empty segment; and
any other (or absent) Content-Type is an error naming that type. -/
theorem c3_dispatch_behavior :
    (∀ (url : List Char) (header : ParsedHeader) (body : List Char),
      header.statusCode ≠ "200".toList →
      ∃ e : APIError, dispatch url header body = .error (.api e) ∧
        (∃ a b, e.message = a ++ header.statusCode ++ b) ∧
        (∀ r, header.reason = some r → ∃ a b, e.message = a ++ r ++ b)) ∧
    (∀ (url : List Char) (header : ParsedHeader) (body : List Char),
      header.statusCode = "200".toList →
      headerGet header "Content-Type".toList = some "application/json".toList →
      (∀ e, parse_json body = .error e → dispatch url header body = .error (.api e)) ∧
      (∀ j v, parse_json body = .ok j → jsonObjGet j "result".toList = some v →
        dispatch url header body = .ok (.json v))) ∧
    (∀ body : List Char, extractBraces body = none → ∃ e, parse_json body = .error e) ∧
    (∀ (body s : List Char), extractBraces body = some s → jsonLoads s = none →
      ∃ e, parse_json body = .error e) ∧
    (∀ (url : List Char) (header : ParsedHeader) (body : List Char),
      header.statusCode = "200".toList →
      headerGet header "Content-Type".toList = some "application/x.ubuntu.assertion".toList →
      dispatch url header body
        = .ok (.assertions ((splitBlankAll body).dropLast.map yaml_safe_load))) ∧
    (∀ (url : List Char) (header : ParsedHeader) (body ct : List Char),
      header.statusCode = "200".toList →
      headerGet header "Content-Type".toList = some ct →
      ct ≠ "application/json".toList → ct ≠ "application/x.ubuntu.assertion".toList →
      ∃ e : APIError, dispatch url header body = .error (.api e) ∧
        ∃ a b, e.message = a ++ ct ++ b) ∧
    (∀ (url : List Char) (header : ParsedHeader) (body : List Char),
      header.statusCode = "200".toList →
      headerGet header "Content-Type".toList = none →
      dispatch url header body = .error (.api ⟨"Unable to parse content type: None".toList⟩)) ∧
    (∀ docs : List (List Char),
      (∀ d, d ∈ docs → '\x0d' ∉ d ∧ splitBlankOnce d = none ∧ d.getLast? ≠ some '\n') →
      parse_assertions ((docs.map (fun d => d ++ ['\n', '\n'])).flatten)
        = docs.map yaml_safe_load) := by
  refine ⟨?_, ?_, ?_, ?_, ?_, ?_, ?_, ?_⟩
  · intro url header body hne
    refine ⟨⟨"Response ".toList ++ header.statusCode ++
      (match header.reason with
       | some r => " (".toList ++ r ++ [')']
       | none => []) ++ " to request ".toList ++ url⟩, ?_, ?_, ?_⟩
    · rw [dispatch, if_pos hne]
    · exact ⟨"Response ".toList,
        (match header.reason with
         | some r => " (".toList ++ r ++ [')']
         | none => []) ++ " to request ".toList ++ url,
        by simp [List.append_assoc]⟩
    · intro r hr
      refine ⟨"Response ".toList ++ header.statusCode ++ " (".toList,
        [')'] ++ " to request ".toList ++ url, ?_⟩
      rw [hr]
      simp [List.append_assoc]
  · intro url header body h200 hct
    constructor
    · intro e he
      rw [dispatch, if_neg (by simp [h200])]
      simp only [hct, he]
      simp
    · intro j v hj hv
      rw [dispatch, if_neg (by simp [h200])]
      simp only [hct, hj, hv]
      simp
  · intro body hext
    exact ⟨_, by rw [parse_json, hext]⟩
  · intro body s hext hload
    refine ⟨⟨"Unable to parse application/json content: ".toList ++ s⟩, ?_⟩
    rw [parse_json, hext]
    simp only [hload]
  · intro url header body h200 hct
    rw [dispatch, if_neg (by simp [h200])]
    simp only [hct]
    simp [parse_assertions]
  · intro url header body ct h200 hct hj ha
    refine ⟨⟨"Unable to parse content type: ".toList ++ ct⟩, ?_,
      "Unable to parse content type: ".toList, [], by simp⟩
    rw [dispatch, if_neg (by simp [h200])]
    simp only [hct]
    rw [if_neg hj, if_neg ha]
  · intro url header body h200 hct
    rw [dispatch, if_neg (by simp [h200])]
    simp only [hct]
  · intro docs h
    rw [parse_assertions, splitBlankAll]
    rw [splitBlankAllAux_join docs h _ (by have := length_le_joinDocs docs; omega)]
    simp

/-- C3 witness: the spec's JSON example dispatches to its `result` value;
a 404 errors naming "404" and its reason; an unknown `text/html`
Content-Type errors naming it; an absent Content-Type errors; and a
two-document assertion body splits into both documents, dropping the
trailing empty segment. -/
theorem c3_dispatch_behavior_witness :
    (∃ e : APIError, dispatch "GET /v2/snaps".toList
        ⟨"404".toList, some "Not Found".toList, []⟩ "".toList = .error (.api e) ∧
      (∃ a b, e.message = a ++ "404".toList ++ b) ∧
      (∀ r, (some "Not Found".toList : Option (List Char)) = some r →
        ∃ a b, e.message = a ++ r ++ b)) ∧
    dispatch "GET /v2/snaps".toList
        ⟨"200".toList, some "OK".toList, [("Content-Type".toList, "application/json".toList)]⟩
        "\x7b\"result\": \x7b\"k\":\"v\"\x7d\x7d".toList
      = .ok (.json (.obj [("k".toList, .str "v".toList)])) ∧
    (∃ e : APIError, dispatch "GET /v2/snaps".toList
        ⟨"200".toList, some "OK".toList, [("Content-Type".toList, "text/html".toList)]⟩
        "".toList = .error (.api e) ∧
      ∃ a b, e.message = a ++ "text/html".toList ++ b) ∧
    parse_assertions (("type: model".toList ++ ['\n', '\n']) ++
        ("sign-key: k1".toList ++ ['\n', '\n']))
      = ["type: model".toList, "sign-key: k1".toList] := by
  refine ⟨?_, ?_, ?_, ?_⟩
  · exact c3_dispatch_behavior.1 "GET /v2/snaps".toList
      ⟨"404".toList, some "Not Found".toList, []⟩ "".toList (by decide)
  · exact (c3_dispatch_behavior.2.1 "GET /v2/snaps".toList
      ⟨"200".toList, some "OK".toList, [("Content-Type".toList, "application/json".toList)]⟩
      "\x7b\"result\": \x7b\"k\":\"v\"\x7d\x7d".toList rfl rfl).2
      (.obj [("result".toList, .obj [("k".toList, .str "v".toList)])])
      (.obj [("k".toList, .str "v".toList)]) rfl rfl
  · rcases c3_dispatch_behavior.2.2.2.2.2.1 "GET /v2/snaps".toList
      ⟨"200".toList, some "OK".toList, [("Content-Type".toList, "text/html".toList)]⟩
      "".toList "text/html".toList rfl rfl (by decide) (by decide) with ⟨e, he, a, b, hab⟩
    exact ⟨e, he, a, b, hab⟩
  · have h := c3_dispatch_behavior.2.2.2.2.2.2.2
      ["type: model".toList, "sign-key: k1".toList] (by decide)
    exact (by simpa [List.append_assoc] using h :
      parse_assertions (("type: model".toList ++ ['\n', '\n']) ++
        ("sign-key: k1".toList ++ ['\n', '\n']))
      = ["type: model".toList, "sign-key: k1".toList])

end Toolbox
